import Mathlib

/-
  Shallow embedding of the lighting-basis construction core of the
  Image-Based Relighting Framework (files voronoi.cpp, LightingBasis.cpp,
  optimisation.cpp, officeRoomRelighting.cpp, mathsFunctions.cpp,
  loadFiles.cpp), together with proofs of the specification properties.

  Conventions of the embedding:
  * C `int` is modelled by `ℤ`; C `/` and `%` on `int` are `Int.tdiv` and
    `Int.tmod` (truncation towards zero); `unsigned int` arithmetic is
    modelled by reduction `Int.emod · 4294967296`.
  * C `float`/`double` arithmetic is modelled by exact real arithmetic on
    `ℝ`; a pixel of an HDR environment map carries, per channel, its real
    value together with a boolean not-a-number marker mirroring `isnan`.
  * An OpenCV `Mat` is modelled as a total function from (row, column)
    indices (`ℤ`) to pixel values; writes outside the allocated area are
    out of bounds in the source, so a lookup outside the filled domain
    returns whatever the function yields there (arbitrary memory).
  * Imperative accumulation loops are modelled by `List.foldl` over the
    scan order of the loop nest.
-/

namespace IBRF

/-- Value of a C `int` after the usual arithmetic conversion to 32-bit
`unsigned int`, as happens in the comparison
`lightPosition.x < m_envMapWidth` of `Voronoi::addPointLight` and in
`positionX < envMapWidth` of `LightingBasis::uniformSamplingAreaLightSources`
(signed operand converted to unsigned). -/
def toUInt32 (x : ℤ) : ℤ := x % 4294967296

/-- Squared Euclidean distance between two integer pixel positions,
the quantity minimised by the nearest-neighbour query of the Voronoi
subdivision. -/
def dist2 (p q : ℤ × ℤ) : ℤ := (p.1 - q.1) ^ 2 + (p.2 - q.2) ^ 2

/-- Modelled from the spec: OpenCV `Subdiv2D::findNearest` (the subdivision
is external library code; the spec requires a deterministic nearest-site
query with an unspecified but stable tie-break).  Returns the earliest
inserted site at minimal squared Euclidean distance from the query, or
`none` when no site has been inserted.  `nearestStep` keeps the running
best site while scanning the inserted sites. -/
def nearestStep (q : ℤ × ℤ) (acc : Option (ℤ × ℤ)) (p : ℤ × ℤ) : Option (ℤ × ℤ) :=
  match acc with
  | none => some p
  | some b => if dist2 p q < dist2 b q then some p else some b

/-- Modelled from the spec: the nearest-site query over the full list of
inserted sites (see `nearestStep`). -/
def findNearest (sites : List (ℤ × ℤ)) (q : ℤ × ℤ) : Option (ℤ × ℤ) :=
  sites.foldl (nearestStep q) none

/-- Loop body of `Voronoi::findLightSource`: scan the point-light positions
and return the index of the first one with the given coordinates, `-1` if
none matches.  `i` is the index of the head of `positions` in the full
list. -/
def findLightSourceAux (positions : List (ℤ × ℤ)) (p : ℤ × ℤ) (i : ℤ) : ℤ :=
  match positions with
  | [] => -1
  | q :: rest => if q = p then i else findLightSourceAux rest p (i + 1)

/-- `Voronoi::findLightSource` (voronoi.cpp): index of the first point light
whose position equals `p`, `-1` if there is none. -/
def findLightSource (positions : List (ℤ × ℤ)) (p : ℤ × ℤ) : ℤ :=
  findLightSourceAux positions p 0

/-- `Voronoi::findNearestLightSource` (voronoi.cpp): locate the site of the
subdivision nearest to pixel `(x, y)` and translate its coordinates back to
a cell index through `findLightSource`. -/
def findNearestLightSource (subdiv positions : List (ℤ × ℤ)) (x y : ℤ) : ℤ :=
  match findNearest subdiv (x, y) with
  | none => -1
  | some p => findLightSource positions p

/-- Scan order of the loop nest of `Voronoi::numberOfPixelsPerVoronoiCell`:
outer loop over columns `j < W`, inner loop over rows `i < H`; elements are
`(j, i)` pairs. -/
def pixelScanJI (W H : ℕ) : List (ℤ × ℤ) :=
  (List.range W).flatMap
    (fun j => (List.range H).map (fun i : ℕ => ((j : ℤ), (i : ℤ))))

/-- Scan order of the integration loops (`computeVoronoiWeights*`,
`functionToOptimise`, `identifyMedianEnergy`): outer loop over rows
`i < H`, inner loop over columns `j < W`; elements are `(i, j)` pairs. -/
def pixelScanIJ (H W : ℕ) : List (ℤ × ℤ) :=
  (List.range H).flatMap
    (fun i => (List.range W).map (fun j : ℕ => ((i : ℤ), (j : ℤ))))

/-- `Voronoi::numberOfPixelsPerVoronoiCell` (voronoi.cpp, lines 192-216):
re-derive the per-cell pixel counts by scanning the full `W×H` domain once;
each pixel whose nearest-light query does not fail increments the counter
of its cell.  The counter vector is modelled as a total function from the
cell index. -/
def numberOfPixelsPerVoronoiCell (subdiv positions : List (ℤ × ℤ)) (W H : ℕ) :
    ℤ → ℕ :=
  (pixelScanJI W H).foldl
    (fun counts ji =>
      let cellNumber := findNearestLightSource subdiv positions ji.1 ji.2
      if cellNumber ≠ -1 then
        Function.update counts cellNumber (counts cellNumber + 1)
      else counts)
    (fun _ => 0)

/-- A pixel of an HDR environment map: per-channel real value together with
a not-a-number marker per channel (mirroring `isnan`).  OpenCV stores BGR;
the fields are named after the red/green/blue channels the source reads
through `val[2]`, `val[1]`, `val[0]`. -/
structure PixelV where
  r : ℝ
  g : ℝ
  b : ℝ
  nanR : Bool
  nanG : Bool
  nanB : Bool

/-- The skip test `isnan(R) && isnan(G) && isnan(B)` of the integration
loops: true exactly when all three channels are not-a-number. -/
def allNaN (p : PixelV) : Bool := p.nanR && p.nanG && p.nanB

/-- The all-zero pixel, `Scalar::all(0.0)`. -/
def zeroPixel : PixelV := ⟨0, 0, 0, false, false, false⟩

/-- An environment map as read through `Mat::at<Vec3f>(row, column)`;
reads outside the allocated domain return whatever the total function
yields there. -/
abbrev EnvMap := ℤ → ℤ → PixelV

/-- Row solid-angle factor `sin((float) i*M_PI/m_envMapHeight)`. -/
noncomputable def solidAngleRow (H : ℕ) (i : ℤ) : ℝ := Real.sin (i * Real.pi / H)

/-- Column shift `int jOffset = floor(offset*m_envMapWidth/(2.0*M_PI))`
computed by the integration functions. -/
noncomputable def jOffsetOf (offset : ℝ) (W : ℕ) : ℤ :=
  ⌊offset * W / (2 * Real.pi)⌋

/-- Column index read by the integration loops:
`(j+jOffset) % m_envMapWidth`, where `j` is `unsigned int`, `jOffset` is
`int` and `m_envMapWidth` is `unsigned int`; `jOffset` is converted to
`unsigned int`, the sum wraps modulo `2^32`, and `%` is the unsigned
(non-negative) modulo. -/
def jModulusOf (j jOffset : ℤ) (W : ℕ) : ℤ :=
  ((j + jOffset) % 4294967296) % (W : ℤ)

/-- Loop body of `Voronoi::findImageNumber`: scan the groups of cell
numbers picture by picture, overwriting the result at every match (the
loop has no break, so the last matching picture wins).  `k` is the index
of the head group, `imageNumber` the running result. -/
def findImageNumberAux (groups : List (List ℤ)) (cellNumber k imageNumber : ℤ) : ℤ :=
  match groups with
  | [] => imageNumber
  | g :: rest =>
      findImageNumberAux rest cellNumber (k + 1)
        (if cellNumber ∈ g then k else imageNumber)

/-- `Voronoi::findImageNumber` (voronoi.cpp, lines 917-932): the index of
the picture of the reflectance field owning the given Voronoi cell, `-1`
when no picture owns it. -/
def findImageNumber (cellNumberPerPicture : List (List ℤ)) (cellNumber : ℤ) : ℤ :=
  findImageNumberAux cellNumberPerPicture cellNumber 0 (-1)

/-- `Voronoi::computeVoronoiWeightsOR` (voronoi.cpp, lines 693-741), with
the member `m_rgbWeights` zero-initialised on entry (callers run
`clearWeights()` first): scan the map row by row and column by column; for
each pixel find the owning cell from the unshifted pixel, look the map up
at the shifted wrapped column, and unless all three channels are
not-a-number add the solid-angle-weighted channel values to the RGB
accumulator of the picture owning that cell.  The accumulator vector is
modelled as a total function from the picture index, which also represents
the out-of-bounds slot `-1` used when a cell belongs to no picture. -/
noncomputable def computeVoronoiWeightsOR (subdiv positions : List (ℤ × ℤ))
    (cellNumberPerPicture : List (List ℤ)) (environmentMap : EnvMap)
    (W H : ℕ) (offset : ℝ) : ℤ → ℝ × ℝ × ℝ :=
  let jOffset := jOffsetOf offset W
  (pixelScanIJ H W).foldl
    (fun acc ij =>
      let cellNumber := findNearestLightSource subdiv positions ij.2 ij.1
      let jModulus := jModulusOf ij.2 jOffset W
      if cellNumber ≠ -1 then
        let imageNumber := findImageNumber cellNumberPerPicture cellNumber
        let p := environmentMap ij.1 jModulus
        if allNaN p then acc
        else
          Function.update acc imageNumber
            (acc imageNumber +
              (p.r * solidAngleRow H ij.1, p.g * solidAngleRow H ij.1,
                p.b * solidAngleRow H ij.1))
      else acc)
    (fun _ => (0, 0, 0))

/-- Per-pixel contribution of the integration loop of
`computeVoronoiWeightsOR` to the accumulator of picture `c`, written as a
summand. -/
noncomputable def pixelContributionOR (subdiv positions : List (ℤ × ℤ))
    (cellNumberPerPicture : List (List ℤ)) (environmentMap : EnvMap)
    (W H : ℕ) (offset : ℝ) (ij : ℤ × ℤ) (c : ℤ) : ℝ × ℝ × ℝ :=
  let cellNumber := findNearestLightSource subdiv positions ij.2 ij.1
  let p := environmentMap ij.1 (jModulusOf ij.2 (jOffsetOf offset W) W)
  if cellNumber ≠ -1 ∧ allNaN p = false ∧
      c = findImageNumber cellNumberPerPicture cellNumber then
    (p.r * solidAngleRow H ij.1, p.g * solidAngleRow H ij.1,
      p.b * solidAngleRow H ij.1)
  else 0

/-- A constant unit-intensity pixel: every channel 1, no channel
not-a-number. -/
def unitPixel : PixelV := ⟨1, 1, 1, false, false, false⟩

/-- `moduloRealNumber` (mathsFunctions.cpp, lines 200-209):
`number - floor(number/modulo)*modulo`. -/
noncomputable def moduloRealNumber (number modulo : ℝ) : ℝ :=
  number - ⌊number / modulo⌋ * modulo

/-- Column shift computed by `rotateLatLongMap`:
`floor(moduloRealNumber(offset, 2*M_PI)/(2.0*M_PI)*width)`. -/
noncomputable def rotateJOffsetOf (offset : ℝ) (W : ℕ) : ℤ :=
  ⌊moduloRealNumber offset (2 * Real.pi) / (2 * Real.pi) * W⌋

/-- `rotateLatLongMap` (mathsFunctions.cpp, lines 719-743): the rotated map
holds `original(i, (j+jOffset) % width)` at every domain pixel `(i, j)` and
zero outside the filled domain (`result = Scalar::all(0.0)`).  All operands
of `%` are C `int`, so it is the truncating remainder. -/
noncomputable def rotateLatLongMap (originalMap : EnvMap) (W H : ℕ)
    (offset : ℝ) : EnvMap :=
  fun i j =>
    if 0 ≤ i ∧ i < (H : ℤ) ∧ 0 ≤ j ∧ j < (W : ℤ) then
      originalMap i (Int.tmod (j + rotateJOffsetOf offset W) (W : ℤ))
    else zeroPixel

/-- `LightingBasis` (LightingBasis.h): ordered point-light positions,
area-light rectangles (two opposite corners each), the sampling flag, and
the redundant counters kept consistent by every mutator. -/
structure LightingBasis where
  pointLightSourcePosition : List (ℤ × ℤ)
  rectanglesAreaLights : List ((ℤ × ℤ) × (ℤ × ℤ))
  areAreaLightsSampled : Bool
  numberOfPointLights : ℤ
  numberOfAreaLights : ℤ

/-- The empty basis built by the default constructor. -/
def LightingBasis.empty : LightingBasis := ⟨[], [], false, 0, 0⟩

/-- `LightingBasis::addPointLight` (no bounds check at this level): push
the position and bump the counter. -/
def LightingBasis.addPointLight (b : LightingBasis) (p : ℤ × ℤ) : LightingBasis :=
  { b with
    pointLightSourcePosition := b.pointLightSourcePosition ++ [p],
    numberOfPointLights := b.numberOfPointLights + 1 }

/-- `LightingBasis::addPointLights`: append several positions in order. -/
def LightingBasis.addPointLights (b : LightingBasis) (ps : List (ℤ × ℤ)) :
    LightingBasis :=
  ps.foldl LightingBasis.addPointLight b

/-- `LightingBasis::clearBasis`: reinitialise every attribute. -/
def LightingBasis.clearBasis (_ : LightingBasis) : LightingBasis :=
  LightingBasis.empty

/-- The state of a `Voronoi` object that `Voronoi::addPointLight` touches:
the owned basis, the sites inserted into the subdivision, and the per-cell
pixel counters. -/
structure VoronoiState where
  basis : LightingBasis
  subdivSites : List (ℤ × ℤ)
  numberOfPixelsInVoronoiCell : ℤ → ℕ

/-- `Voronoi::addPointLight` (voronoi.cpp, lines 93-103): the position is
inserted into the basis and the subdivision only when
`lightPosition.x < m_envMapWidth && lightPosition.y < m_envMapHeight`
holds — a C comparison of `int` against `unsigned int`, so the signed
coordinate is converted to unsigned first; afterwards the per-cell pixel
counts are recomputed unconditionally. -/
def voronoiAddPointLight (W H : ℕ) (st : VoronoiState) (p : ℤ × ℤ) :
    VoronoiState :=
  let st2 :=
    if toUInt32 p.1 < (W : ℤ) ∧ toUInt32 p.2 < (H : ℤ) then
      { st with
        basis := st.basis.addPointLight p,
        subdivSites := st.subdivSites ++ [p] }
    else st
  { st2 with
    numberOfPixelsInVoronoiCell :=
      numberOfPixelsPerVoronoiCell st2.subdivSites
        st2.basis.pointLightSourcePosition W H }

/-- `reorientateRectangle` (mathsFunctions.cpp, lines 267-295): the
(upper left, bottom right) pair of corners of the rectangle given two
opposite corners. -/
def reorientateRectangle (startingPoint endingPoint : ℤ × ℤ) :
    (ℤ × ℤ) × (ℤ × ℤ) :=
  if startingPoint.1 < endingPoint.1 ∧ startingPoint.2 < endingPoint.2 then
    (startingPoint, endingPoint)
  else if endingPoint.1 < startingPoint.1 ∧ startingPoint.2 < endingPoint.2 then
    ((endingPoint.1, startingPoint.2), (startingPoint.1, endingPoint.2))
  else if startingPoint.1 < endingPoint.1 ∧ endingPoint.2 < startingPoint.2 then
    ((startingPoint.1, endingPoint.2), (endingPoint.1, startingPoint.2))
  else
    (endingPoint, startingPoint)

/-- OpenCV `Point2i * 0.5` as used for rectangle centres: each coordinate
becomes `saturate_cast<int>(0.5 * v)`, which rounds half to even. -/
def halfRoundEven (a : ℤ) : ℤ :=
  if a % 2 = 0 then a / 2
  else if ((a - 1) / 2) % 2 = 0 then (a - 1) / 2 else (a - 1) / 2 + 1

/-- Centre `(upperLeft+bottomRight)*0.5` of a rectangle. -/
def centerOfCorners (p q : ℤ × ℤ) : ℤ × ℤ :=
  (halfRoundEven (p.1 + q.1), halfRoundEven (p.2 + q.2))

/-- Inner loop (over `l`) of `LightingBasis::uniformSamplingAreaLightSources`:
attempt `nX` samples along a row; a sample is added, and `positionX`
advanced by `stepWidth`, only when the signed-to-unsigned comparisons
`positionX < envMapWidth && positionY < envMapHeight` succeed.  Returns
the basis and the final `positionX`. -/
def gridLoopX (W H : ℕ) (b : LightingBasis) (nX : ℕ) (posX posY stepW : ℤ) :
    LightingBasis × ℤ :=
  match nX with
  | 0 => (b, posX)
  | n + 1 =>
      if toUInt32 posX < (W : ℤ) ∧ toUInt32 posY < (H : ℤ) then
        gridLoopX W H (b.addPointLight (posX, posY)) n (posX + stepW) posY stepW
      else gridLoopX W H b n posX posY stepW

/-- Outer loop (over `k`) of the grid sampling: after each row `positionX`
is reset to `upperLeft.x + stepWidth/2` and `positionY` advances by
`stepHeight`. -/
def gridLoopY (W H : ℕ) (b : LightingBasis) (nY nX : ℕ)
    (startX posY stepW stepH : ℤ) : LightingBasis :=
  match nY with
  | 0 => b
  | n + 1 =>
      gridLoopY W H (gridLoopX W H b nX startX posY stepW).1 n nX startX
        (posY + stepH) stepW stepH

/-- Body of the loop over the area lights of
`LightingBasis::uniformSamplingAreaLightSources` (lines 398-446) for one
rectangle.  All quantities are C `int`: extents via `abs`, sample counts
and steps via truncating division by the 25-pixel spacing.  A rectangle
strictly wider and taller than the spacing is sampled on the regular grid
starting half a step inside the upper-left corner; otherwise its centre
`(upperLeft+bottomRight)*0.5` is added as the single point light. -/
def sampleOneAreaLight (W H : ℕ) (b : LightingBasis)
    (rect : (ℤ × ℤ) × (ℤ × ℤ)) : LightingBasis :=
  let startingPoint := rect.1
  let endingPoint := rect.2
  let width := |startingPoint.1 - endingPoint.1|
  let height := |startingPoint.2 - endingPoint.2|
  let numberOfSamplesX := Int.tdiv width 25
  let numberOfSamplesY := Int.tdiv height 25
  let ul := (reorientateRectangle startingPoint endingPoint).1
  let br := (reorientateRectangle startingPoint endingPoint).2
  if 25 < width ∧ 25 < height then
    let stepWidth := Int.tdiv width numberOfSamplesX
    let stepHeight := Int.tdiv height numberOfSamplesY
    gridLoopY W H b numberOfSamplesY.toNat numberOfSamplesX.toNat
      (ul.1 + Int.tdiv stepWidth 2) (ul.2 + Int.tdiv stepHeight 2)
      stepWidth stepHeight
  else
    b.addPointLight (centerOfCorners ul br)

/-- `LightingBasis::uniformSamplingAreaLightSources` (LightingBasis.cpp,
lines 393-448): expand every stored rectangle in order, then set the
`areAreaLightsSampled` flag. -/
def uniformSamplingAreaLightSources (W H : ℕ) (b : LightingBasis) :
    LightingBasis :=
  { b.rectanglesAreaLights.foldl (sampleOneAreaLight W H) b with
    areAreaLightsSampled := true }

/-- Decimal digit characters (as character codes) of `n`, most significant
first: the stream output of `operator<<` on a non-negative integer. -/
def natDecimal (n : ℕ) : List ℕ :=
  if h : n < 10 then [48 + n] else natDecimal (n / 10) ++ [48 + n % 10]
termination_by n
decreasing_by
  exact Nat.div_lt_self (by omega) (by omega)

/-- Stream output of `operator<<` on an `int`: optional minus sign (code
45) followed by the decimal digits of the absolute value. -/
def intDecimal (x : ℤ) : List ℕ :=
  if x < 0 then 45 :: natDecimal (-x).toNat else natDecimal x.toNat

/-- Digit-accumulation loop of C `atoi`: consume decimal digits (codes 48
to 57) until the first non-digit, building the value. -/
def atoiDigits (acc : ℤ) : List ℕ → ℤ
  | [] => acc
  | c :: cs =>
      if 48 ≤ c ∧ c ≤ 57 then atoiDigits (10 * acc + ((c - 48 : ℕ) : ℤ)) cs
      else acc

/-- C `atoi` over the character codes of a token: skip leading whitespace,
read an optional sign, then accumulate decimal digits; `0` when no digit is
found. -/
def atoiChars : List ℕ → ℤ
  | [] => 0
  | c :: cs =>
      if c = 32 ∨ c = 9 ∨ c = 10 ∨ c = 13 then atoiChars cs
      else if c = 45 then -atoiDigits 0 cs
      else if c = 43 then atoiDigits 0 cs
      else atoiDigits 0 (c :: cs)

/-- Token stream written by `LightingBasis::saveBasis` starting at light
index `i`: for each light at `(x, y)` the three whitespace-separated
tokens `i:`, `x`, `y` (the label token carries the colon, code 58). -/
def saveBasisTokensAux (i : ℕ) : List (ℤ × ℤ) → List (List ℕ)
  | [] => []
  | p :: rest =>
      (natDecimal i ++ [58]) :: intDecimal p.1 :: intDecimal p.2 ::
        saveBasisTokensAux (i + 1) rest

/-- `LightingBasis::saveBasis` (LightingBasis.cpp, lines 454-479): the
token stream of the file `basis.txt`. -/
def saveBasisTokens (points : List (ℤ × ℤ)) : List (List ℕ) :=
  saveBasisTokensAux 0 points

/-- Token-level model of the read loop of `LightingBasis::loadBasis`
(LightingBasis.cpp, lines 486-530): while a token can be read into
`lightNumber`, read two more tokens into `x` and `y` (a failed extraction
leaves the C++11 string empty, and `atoi("") = 0`) and record
`Point2i(atoi(x), atoi(y))`. -/
def parseBasisTokens : List (List ℕ) → List (ℤ × ℤ)
  | [] => []
  | [_] => [(0, 0)]
  | [_, x] => [(atoiChars x, 0)]
  | _ :: x :: y :: rest => (atoiChars x, atoiChars y) :: parseBasisTokens rest

/-- `LightingBasis::loadBasis`: parse the file and hand the parsed
positions to `addPointLights`, appending them to whatever the basis
already holds. -/
def loadBasis (b : LightingBasis) (tokens : List (List ℕ)) : LightingBasis :=
  b.addPointLights (parseBasisTokens tokens)

/-- Mean-channel intensity `(R+G+B)/3.0` of a pixel of a lighting
condition image. -/
noncomputable def intensityMean (v : ℝ × ℝ × ℝ) : ℝ := (v.1 + v.2.1 + v.2.2) / 3

/-- First loop of `OfficeRoomRelighting::identifyMedianEnergy`
(officeRoomRelighting.cpp, lines 764-773): total energy of one condition's
sub-image, accumulated in row-major order. -/
noncomputable def totalEnergyOf (cond : ℤ → ℤ → ℝ × ℝ × ℝ) (W H : ℕ) : ℝ :=
  (pixelScanIJ H W).foldl (fun s ij => s + intensityMean (cond ij.1 ij.2)) 0

/-- Second loop of `identifyMedianEnergy` (lines 777-794) for one
condition: accumulate the running energy and, at the first pixel where it
strictly exceeds half the total (`sumEnergy > medianEnergy` with the
`isAlreadyGreater` flag still clear), add the point light `(j, i)`.  The
state is `(sumEnergy, isAlreadyGreater, added lights)`. -/
noncomputable def identifyMedianEnergyScan (cond : ℤ → ℤ → ℝ × ℝ × ℝ)
    (W H : ℕ) : ℝ × Bool × List (ℤ × ℤ) :=
  let medianEnergy := totalEnergyOf cond W H / 2
  (pixelScanIJ H W).foldl
    (fun st ij =>
      let sumEnergy := st.1 + intensityMean (cond ij.1 ij.2)
      if sumEnergy > medianEnergy ∧ st.2.1 = false then
        (sumEnergy, true, st.2.2 ++ [(ij.2, ij.1)])
      else (sumEnergy, st.2.1, st.2.2))
    (0, false, [])

/-- The point lights `identifyMedianEnergy` adds for one condition. -/
noncomputable def identifyMedianEnergyLights (cond : ℤ → ℤ → ℝ × ℝ × ℝ)
    (W H : ℕ) : List (ℤ × ℤ) :=
  (identifyMedianEnergyScan cond W H).2.2

/-- Index of the first entry of the list at which the running sum started
from `acc` strictly exceeds `t` — the spec's "first pixel where the running
cumulative sum exceeds half the image's total energy". -/
noncomputable def firstExceedIdx (t acc : ℝ) : List ℝ → Option ℕ
  | [] => none
  | x :: xs =>
      if acc + x > t then some 0 else (firstExceedIdx t (acc + x) xs).map (· + 1)

/-- The mask test of `functionToOptimise`: the mask pixel is black, i.e.
`RMask < 127.0 && GMask < 127.0 && BMask < 127.0`. -/
def maskSelected (m : ℝ × ℝ × ℝ) : Prop := m.1 < 127 ∧ m.2.1 < 127 ∧ m.2.2 < 127

noncomputable instance maskSelectedDec (m : ℝ × ℝ × ℝ) :
    Decidable (maskSelected m) :=
  inferInstanceAs (Decidable (m.1 < 127 ∧ m.2.1 < 127 ∧ m.2.2 < 127))

/-- `functionToOptimise` (optimisation.cpp, lines 400-495): for every
lighting condition and every pixel selected by that condition's mask whose
map value is not entirely not-a-number, accumulate the squared difference
between `variables[k] * intensityWeights` and the solid-angle-weighted map
intensity; return the square root of the total. -/
noncomputable def functionToOptimise (masks : ℕ → ℤ → ℤ → ℝ × ℝ × ℝ)
    (environmentMap : EnvMap) (rgbWeights : ℕ → ℝ × ℝ × ℝ) (W H : ℕ)
    (offset : ℝ) (numberOfVariables : ℕ) (vars : ℕ → ℝ) : ℝ :=
  let jOffset := jOffsetOf offset W
  Real.sqrt ((List.range numberOfVariables).foldl
    (fun result k =>
      (pixelScanIJ H W).foldl
        (fun res ij =>
          let jModulus := jModulusOf ij.2 jOffset W
          if maskSelected (masks k ij.1 ij.2) then
            let p := environmentMap ij.1 jModulus
            let R := p.r * Real.sin (Real.pi * ij.1 / H)
            let G := p.g * Real.sin (Real.pi * ij.1 / H)
            let B := p.b * Real.sin (Real.pi * ij.1 / H)
            let intensityEnvMap := (R + G + B) / 3
            if allNaN p then res
            else
              let intensityWeights := ((rgbWeights k).1 + (rgbWeights k).2.1 +
                (rgbWeights k).2.2) / 3
              res + (vars k * intensityWeights - intensityEnvMap) ^ 2
          else res)
        result)
    0)

/-- `clamp` (mathsFunctions.cpp, lines 221-241): clamp into `[inf, sup]`,
returning the value unchanged when the range is inverted. -/
noncomputable def clamp (value inf sup : ℝ) : ℝ :=
  if inf ≤ sup then
    (if value < inf then inf else if value > sup then sup else value)
  else value

/-- Modelled from the spec: dlib `find_min_box_constrained` (external
library) runs a quasi-Newton search whose every iterate is kept inside the
box `[lo, hi]` coordinatewise; the search trajectory is abstracted by the
`search` parameter and the box constraint by clamping its outcome. -/
noncomputable def findMinBoxConstrained (search : ℕ → ℝ) (lo hi : ℝ) :
    ℕ → ℝ :=
  fun k => clamp (search k) lo hi

/-- `Optimisation::environmentMapOptimisation` (optimisation.cpp, lines
103-133): run the box-constrained minimisation of `functionToOptimise`
with bounds `0.0` and `10.0`, then scale every condition's RGB weight by
the returned multiplier.  Returns the multipliers and the scaled
weights. -/
noncomputable def environmentMapOptimisation (search : ℕ → ℝ)
    (rgbWeights : ℕ → ℝ × ℝ × ℝ) : (ℕ → ℝ) × (ℕ → ℝ × ℝ × ℝ) :=
  let sol := findMinBoxConstrained search 0 10
  (sol, fun k =>
    (sol k * (rgbWeights k).1, sol k * (rgbWeights k).2.1,
      sol k * (rgbWeights k).2.2))

theorem list_range_map_sum {M : Type} [AddCommMonoid M] (n : ℕ) (f : ℕ → M) :
    ((List.range n).map f).sum = ∑ i ∈ Finset.range n, f i := by
  induction n with
  | zero => simp
  | succ n ih => rw [List.range_succ, List.map_append, List.sum_append,
      Finset.sum_range_succ, ih]; simp

theorem scanJI_map_sum {M : Type} [AddCommMonoid M] (W H : ℕ) (g : ℤ × ℤ → M) :
    ((pixelScanJI W H).map g).sum
      = ∑ j ∈ Finset.range W, ∑ i ∈ Finset.range H, g ((j : ℤ), (i : ℤ)) := by
  unfold pixelScanJI
  induction W with
  | zero => simp
  | succ W ih =>
      rw [List.range_succ, List.flatMap_append, List.map_append, List.sum_append,
        Finset.sum_range_succ, ih, List.flatMap_cons, List.flatMap_nil,
        List.append_nil, List.map_map, list_range_map_sum]
      simp only [Function.comp_apply]

theorem scanIJ_map_sum {M : Type} [AddCommMonoid M] (H W : ℕ) (g : ℤ × ℤ → M) :
    ((pixelScanIJ H W).map g).sum
      = ∑ i ∈ Finset.range H, ∑ j ∈ Finset.range W, g ((i : ℤ), (j : ℤ)) := by
  unfold pixelScanIJ
  induction H with
  | zero => simp
  | succ H ih =>
      rw [List.range_succ, List.flatMap_append, List.map_append, List.sum_append,
        Finset.sum_range_succ, ih, List.flatMap_cons, List.flatMap_nil,
        List.append_nil, List.map_map, list_range_map_sum]
      simp only [Function.comp_apply]

theorem pixelScanJI_length (W H : ℕ) : (pixelScanJI W H).length = W * H := by
  unfold pixelScanJI
  induction W with
  | zero => simp
  | succ W ih =>
      rw [List.range_succ, List.flatMap_append, List.length_append, ih,
        List.flatMap_cons, List.flatMap_nil, List.append_nil, List.length_map,
        List.length_range]
      ring

theorem foldl_fun_add {M : Type} [AddCommMonoid M] {α : Type} (g : α → ℤ → M) :
    ∀ (l : List α) (acc : ℤ → M),
      l.foldl (fun a x => fun c => a c + g x c) acc
        = fun c => acc c + (l.map (fun x => g x c)).sum := by
  intro l
  induction l with
  | nil => intro acc; simp
  | cons x xs ih =>
      intro acc
      funext c
      simp only [List.foldl_cons, ih, List.map_cons, List.sum_cons]
      simp [add_assoc]

theorem list_sum_ones {α : Type} : ∀ l : List α, (l.map (fun _ => (1 : ℕ))).sum = l.length := by
  intro l
  induction l with
  | nil => rfl
  | cons x xs ih => simp [ih, Nat.add_comm]

theorem sum_list_swap {M : Type} [AddCommMonoid M] {α : Type} (s : Finset ℕ)
    (g : α → ℕ → M) :
    ∀ l : List α,
      ∑ k ∈ s, (l.map (fun x => g x k)).sum = (l.map (fun x => ∑ k ∈ s, g x k)).sum := by
  intro l
  induction l with
  | nil => simp
  | cons x xs ih => simp [Finset.sum_add_distrib, ih]

theorem sum_range_indicator_int (n : ℕ) (cell : ℤ) (h0 : 0 ≤ cell)
    (h1 : cell < (n : ℤ)) :
    ∑ k ∈ Finset.range n, (if (k : ℤ) = cell then (1 : ℕ) else 0) = 1 := by
  have hiff : ∀ k : ℕ, ((k : ℤ) = cell) ↔ (k = cell.toNat) := by
    intro k; omega
  have hrw : ∀ k ∈ Finset.range n,
      (if (k : ℤ) = cell then (1 : ℕ) else 0) = (if k = cell.toNat then 1 else 0) := by
    intro k _; simp [hiff k]
  rw [Finset.sum_congr rfl hrw, Finset.sum_ite_eq']
  rw [if_pos (Finset.mem_range.mpr (by omega))]

theorem nearestStep_foldl_some (q : ℤ × ℤ) :
    ∀ (l : List (ℤ × ℤ)) (b : ℤ × ℤ),
      ∃ c, l.foldl (nearestStep q) (some b) = some c ∧ (c = b ∨ c ∈ l) := by
  intro l
  induction l with
  | nil => intro b; exact ⟨b, rfl, Or.inl rfl⟩
  | cons x xs ih =>
      intro b
      rw [List.foldl_cons]
      by_cases h : dist2 x q < dist2 b q
      · obtain ⟨c, hc, hmem⟩ := ih x
        refine ⟨c, ?_, ?_⟩
        · rw [show nearestStep q (some b) x = some x from by simp [nearestStep, h]]
          exact hc
        · rcases hmem with h1 | h1
          · exact Or.inr (by simp [h1])
          · exact Or.inr (by simp [h1])
      · obtain ⟨c, hc, hmem⟩ := ih b
        refine ⟨c, ?_, ?_⟩
        · rw [show nearestStep q (some b) x = some b from by simp [nearestStep, h]]
          exact hc
        · rcases hmem with h1 | h1
          · exact Or.inl h1
          · exact Or.inr (by simp [h1])

theorem findNearest_mem (sites : List (ℤ × ℤ)) (q : ℤ × ℤ) (h : sites ≠ []) :
    ∃ c ∈ sites, findNearest sites q = some c := by
  cases sites with
  | nil => exact absurd rfl h
  | cons s rest =>
      obtain ⟨c, hc, hmem⟩ := nearestStep_foldl_some q rest s
      refine ⟨c, ?_, ?_⟩
      · rcases hmem with h1 | h1
        · simp [h1]
        · simp [h1]
      · unfold findNearest
        rw [List.foldl_cons]
        exact hc

theorem findLightSourceAux_mem :
    ∀ (l : List (ℤ × ℤ)) (p : ℤ × ℤ) (i : ℤ), p ∈ l →
      ∃ n : ℕ, findLightSourceAux l p i = i + n ∧ n < l.length := by
  intro l
  induction l with
  | nil => intro p i hp; simp at hp
  | cons x xs ih =>
      intro p i hp
      by_cases hx : x = p
      · exact ⟨0, by simp [findLightSourceAux, hx], by simp⟩
      · have hpxs : p ∈ xs := by
          rcases List.mem_cons.mp hp with h1 | h1
          · exact absurd h1.symm hx
          · exact h1
        obtain ⟨n, hn, hlt⟩ := ih p (i + 1) hpxs
        refine ⟨n + 1, ?_, ?_⟩
        · rw [show findLightSourceAux (x :: xs) p i = findLightSourceAux xs p (i + 1)
            from by simp [findLightSourceAux, hx], hn]
          push_cast
          ring
        · simpa using Nat.succ_lt_succ hlt

theorem findLightSource_range (positions : List (ℤ × ℤ)) (p : ℤ × ℤ)
    (h : p ∈ positions) :
    0 ≤ findLightSource positions p ∧
      findLightSource positions p < positions.length := by
  obtain ⟨n, hn, hlt⟩ := findLightSourceAux_mem positions p 0 h
  unfold findLightSource
  rw [hn]
  constructor
  · positivity
  · simpa using hlt

theorem findNearestLightSource_range (positions : List (ℤ × ℤ)) (x y : ℤ)
    (h : positions ≠ []) :
    0 ≤ findNearestLightSource positions positions x y ∧
      findNearestLightSource positions positions x y < positions.length := by
  obtain ⟨c, hc, heq⟩ := findNearest_mem positions (x, y) h
  unfold findNearestLightSource
  rw [heq]
  exact findLightSource_range positions c hc

theorem counts_step_eq (subdiv positions : List (ℤ × ℤ)) (counts : ℤ → ℕ)
    (ji : ℤ × ℤ) :
    (let cellNumber := findNearestLightSource subdiv positions ji.1 ji.2
     if cellNumber ≠ -1 then
       Function.update counts cellNumber (counts cellNumber + 1)
     else counts)
    = fun c => counts c +
        (if (findNearestLightSource subdiv positions ji.1 ji.2 ≠ -1 ∧
             c = findNearestLightSource subdiv positions ji.1 ji.2) then 1 else 0) := by
  funext c
  by_cases h1 : findNearestLightSource subdiv positions ji.1 ji.2 ≠ -1
  · by_cases h2 : c = findNearestLightSource subdiv positions ji.1 ji.2
    · simp [h1, h2, Function.update_apply]
    · simp [h1, h2, Function.update_apply]
  · simp [h1]

theorem numberOfPixelsPerVoronoiCell_eq_sum (subdiv positions : List (ℤ × ℤ))
    (W H : ℕ) (c : ℤ) :
    numberOfPixelsPerVoronoiCell subdiv positions W H c
      = ((pixelScanJI W H).map
          (fun ji => if (findNearestLightSource subdiv positions ji.1 ji.2 ≠ -1 ∧
              c = findNearestLightSource subdiv positions ji.1 ji.2) then 1 else 0)).sum := by
  unfold numberOfPixelsPerVoronoiCell
  rw [show (fun (counts : ℤ → ℕ) (ji : ℤ × ℤ) =>
      let cellNumber := findNearestLightSource subdiv positions ji.1 ji.2
      if cellNumber ≠ -1 then
        Function.update counts cellNumber (counts cellNumber + 1)
      else counts)
    = fun (a : ℤ → ℕ) (x : ℤ × ℤ) => fun d => a d +
        (if (findNearestLightSource subdiv positions x.1 x.2 ≠ -1 ∧
             d = findNearestLightSource subdiv positions x.1 x.2) then 1 else 0)
    from funext fun counts => funext fun ji => counts_step_eq subdiv positions counts ji]
  rw [foldl_fun_add]
  simp

/-- Claim C1: for every environment-map domain of width `W` and height `H`
and every basis containing at least one point light, after the per-cell
pixel counts are recomputed by `numberOfPixelsPerVoronoiCell` scanning the
full domain, the per-cell pixel counts sum to exactly `W×H`: every pixel is
counted in exactly one cell. -/
theorem C1_partition_pixel_counts_sum (positions : List (ℤ × ℤ)) (W H : ℕ)
    (hne : positions ≠ []) :
    ∑ k ∈ Finset.range positions.length,
        numberOfPixelsPerVoronoiCell positions positions W H (k : ℤ) = W * H := by
  have hcell : ∀ ji : ℤ × ℤ,
      ∑ k ∈ Finset.range positions.length,
        (if (findNearestLightSource positions positions ji.1 ji.2 ≠ -1 ∧
            (k : ℤ) = findNearestLightSource positions positions ji.1 ji.2)
         then (1 : ℕ) else 0) = 1 := by
    intro ji
    obtain ⟨h0, h1⟩ := findNearestLightSource_range positions ji.1 ji.2 hne
    have hne1 : findNearestLightSource positions positions ji.1 ji.2 ≠ -1 := by omega
    calc ∑ k ∈ Finset.range positions.length,
          (if (findNearestLightSource positions positions ji.1 ji.2 ≠ -1 ∧
              (k : ℤ) = findNearestLightSource positions positions ji.1 ji.2)
           then (1 : ℕ) else 0)
        = ∑ k ∈ Finset.range positions.length,
            (if (k : ℤ) = findNearestLightSource positions positions ji.1 ji.2
             then (1 : ℕ) else 0) := by
          refine Finset.sum_congr rfl ?_
          intro k _
          simp [hne1]
      _ = 1 := sum_range_indicator_int positions.length _ h0 h1
  calc ∑ k ∈ Finset.range positions.length,
        numberOfPixelsPerVoronoiCell positions positions W H (k : ℤ)
      = ∑ k ∈ Finset.range positions.length,
          ((pixelScanJI W H).map
            (fun ji => if (findNearestLightSource positions positions ji.1 ji.2 ≠ -1 ∧
                (k : ℤ) = findNearestLightSource positions positions ji.1 ji.2)
              then (1 : ℕ) else 0)).sum := by
        refine Finset.sum_congr rfl ?_
        intro k _
        exact numberOfPixelsPerVoronoiCell_eq_sum positions positions W H (k : ℤ)
    _ = ((pixelScanJI W H).map (fun ji =>
          ∑ k ∈ Finset.range positions.length,
            (if (findNearestLightSource positions positions ji.1 ji.2 ≠ -1 ∧
                (k : ℤ) = findNearestLightSource positions positions ji.1 ji.2)
             then (1 : ℕ) else 0))).sum := sum_list_swap _ _ _
    _ = ((pixelScanJI W H).map (fun _ => (1 : ℕ))).sum := by
        rw [List.map_congr_left]
        intro ji _
        exact hcell ji
    _ = (pixelScanJI W H).length := list_sum_ones (pixelScanJI W H)
    _ = W * H := pixelScanJI_length W H

/-- Witness for C1: a concrete one-light basis on a 2×3 domain. -/
theorem C1_partition_pixel_counts_sum_witness :
    ∑ k ∈ Finset.range ([((5 : ℤ), (7 : ℤ))].length),
        numberOfPixelsPerVoronoiCell [((5 : ℤ), (7 : ℤ))] [((5 : ℤ), (7 : ℤ))] 2 3 (k : ℤ)
      = 2 * 3 :=
  C1_partition_pixel_counts_sum [((5 : ℤ), (7 : ℤ))] 2 3 (by decide)

theorem findLightSourceAux_cases :
    ∀ (l : List (ℤ × ℤ)) (p : ℤ × ℤ) (i : ℤ),
      findLightSourceAux l p i = -1 ∨
        ∃ n : ℕ, n < l.length ∧ findLightSourceAux l p i = i + n := by
  intro l
  induction l with
  | nil => intro p i; exact Or.inl rfl
  | cons x xs ih =>
      intro p i
      by_cases hx : x = p
      · exact Or.inr ⟨0, by simp, by simp [findLightSourceAux, hx]⟩
      · rw [show findLightSourceAux (x :: xs) p i = findLightSourceAux xs p (i + 1)
          from by simp [findLightSourceAux, hx]]
        rcases ih p (i + 1) with h | ⟨n, hn, heq⟩
        · exact Or.inl h
        · refine Or.inr ⟨n + 1, by simpa using Nat.succ_lt_succ hn, ?_⟩
          rw [heq]
          push_cast
          ring

theorem findNearestLightSource_cases (subdiv positions : List (ℤ × ℤ)) (x y : ℤ) :
    findNearestLightSource subdiv positions x y = -1 ∨
      (0 ≤ findNearestLightSource subdiv positions x y ∧
        findNearestLightSource subdiv positions x y < positions.length) := by
  rcases hopt : findNearest subdiv (x, y) with _ | p
  · left
    unfold findNearestLightSource
    rw [hopt]
  · have hval : findNearestLightSource subdiv positions x y
        = findLightSourceAux positions p 0 := by
      unfold findNearestLightSource
      rw [hopt]
      rfl
    rw [hval]
    rcases findLightSourceAux_cases positions p 0 with h1 | ⟨n, hn, heq⟩
    · exact Or.inl h1
    · exact Or.inr ⟨by rw [heq]; positivity, by rw [heq]; simpa using hn⟩

theorem findImageNumberAux_not_mem (cellNumber : ℤ) :
    ∀ (groups : List (List ℤ)) (k imageNumber : ℤ),
      (∀ g ∈ groups, cellNumber ∉ g) →
      findImageNumberAux groups cellNumber k imageNumber = imageNumber := by
  intro groups
  induction groups with
  | nil => intro k img _; rfl
  | cons g rest ih =>
      intro k img h
      have hg : cellNumber ∉ g := h g (by simp)
      rw [show findImageNumberAux (g :: rest) cellNumber k img
          = findImageNumberAux rest cellNumber (k + 1) img from by
            simp [findImageNumberAux, hg]]
      exact ih (k + 1) img (fun x hx => h x (by simp [hx]))

theorem findImageNumberAux_mem (cellNumber : ℤ) :
    ∀ (groups : List (List ℤ)) (k imageNumber : ℤ),
      (∃ g ∈ groups, cellNumber ∈ g) →
      ∃ n : ℕ, n < groups.length ∧
        findImageNumberAux groups cellNumber k imageNumber = k + n := by
  intro groups
  induction groups with
  | nil => intro k img h; simp at h
  | cons g rest ih =>
      intro k img h
      by_cases hrest : ∃ g2 ∈ rest, cellNumber ∈ g2
      · obtain ⟨n, hn, heq⟩ := ih (k + 1) (if cellNumber ∈ g then k else img) hrest
        refine ⟨n + 1, by simpa using Nat.succ_lt_succ hn, ?_⟩
        rw [show findImageNumberAux (g :: rest) cellNumber k img
            = findImageNumberAux rest cellNumber (k + 1)
                (if cellNumber ∈ g then k else img) from rfl, heq]
        push_cast
        ring
      · have hg : cellNumber ∈ g := by
          rcases h with ⟨g2, hg2, hc⟩
          rcases List.mem_cons.mp hg2 with h1 | h1
          · rwa [h1] at hc
          · exact absurd ⟨g2, h1, hc⟩ hrest
        push_neg at hrest
        refine ⟨0, by simp, ?_⟩
        rw [show findImageNumberAux (g :: rest) cellNumber k img
            = findImageNumberAux rest cellNumber (k + 1) k from by
              simp [findImageNumberAux, hg]]
        rw [findImageNumberAux_not_mem cellNumber rest (k + 1) k hrest]
        simp

theorem findImageNumber_mem_range (groups : List (List ℤ)) (cell : ℤ)
    (h : ∃ g ∈ groups, cell ∈ g) :
    0 ≤ findImageNumber groups cell ∧ findImageNumber groups cell < groups.length := by
  obtain ⟨n, hn, heq⟩ := findImageNumberAux_mem cell groups 0 (-1) h
  unfold findImageNumber
  rw [heq]
  constructor
  · positivity
  · simpa using hn

theorem findImageNumber_not_mem (groups : List (List ℤ)) (cell : ℤ)
    (h : ∀ g ∈ groups, cell ∉ g) : findImageNumber groups cell = -1 :=
  findImageNumberAux_not_mem cell groups 0 (-1) h

theorem weightsOR_step_eq (subdiv positions : List (ℤ × ℤ))
    (groups : List (List ℤ)) (environmentMap : EnvMap) (W H : ℕ) (offset : ℝ)
    (acc : ℤ → ℝ × ℝ × ℝ) (ij : ℤ × ℤ) :
    (let cellNumber := findNearestLightSource subdiv positions ij.2 ij.1
     let jModulus := jModulusOf ij.2 (jOffsetOf offset W) W
     if cellNumber ≠ -1 then
       let imageNumber := findImageNumber groups cellNumber
       let p := environmentMap ij.1 jModulus
       if allNaN p then acc
       else
         Function.update acc imageNumber
           (acc imageNumber +
             (p.r * solidAngleRow H ij.1, p.g * solidAngleRow H ij.1,
               p.b * solidAngleRow H ij.1))
     else acc)
    = fun c => acc c +
        pixelContributionOR subdiv positions groups environmentMap W H offset ij c := by
  funext c
  by_cases h1 : findNearestLightSource subdiv positions ij.2 ij.1 ≠ -1
  · by_cases h2 : allNaN (environmentMap ij.1 (jModulusOf ij.2 (jOffsetOf offset W) W)) = true
    · simp [pixelContributionOR, h1, h2]
    · by_cases h3 : c = findImageNumber groups
          (findNearestLightSource subdiv positions ij.2 ij.1)
      · simp [pixelContributionOR, h1, h2, h3, Function.update_apply]
      · simp [pixelContributionOR, h1, h2, h3, Function.update_apply]
  · simp [pixelContributionOR, h1]

theorem computeVoronoiWeightsOR_eq_sum (subdiv positions : List (ℤ × ℤ))
    (groups : List (List ℤ)) (environmentMap : EnvMap) (W H : ℕ) (offset : ℝ)
    (c : ℤ) :
    computeVoronoiWeightsOR subdiv positions groups environmentMap W H offset c
      = ∑ i ∈ Finset.range H, ∑ j ∈ Finset.range W,
          pixelContributionOR subdiv positions groups environmentMap W H offset
            ((i : ℤ), (j : ℤ)) c := by
  unfold computeVoronoiWeightsOR
  rw [show (fun (acc : ℤ → ℝ × ℝ × ℝ) (ij : ℤ × ℤ) =>
      let cellNumber := findNearestLightSource subdiv positions ij.2 ij.1
      let jModulus := jModulusOf ij.2 (jOffsetOf offset W) W
      if cellNumber ≠ -1 then
        let imageNumber := findImageNumber groups cellNumber
        let p := environmentMap ij.1 jModulus
        if allNaN p then acc
        else
          Function.update acc imageNumber
            (acc imageNumber +
              (p.r * solidAngleRow H ij.1, p.g * solidAngleRow H ij.1,
                p.b * solidAngleRow H ij.1))
      else acc)
    = fun (a : ℤ → ℝ × ℝ × ℝ) (x : ℤ × ℤ) => fun d => a d +
        pixelContributionOR subdiv positions groups environmentMap W H offset x d
    from funext fun acc => funext fun ij =>
      weightsOR_step_eq subdiv positions groups environmentMap W H offset acc ij]
  rw [foldl_fun_add]
  have hz : ((0 : ℝ), (0 : ℝ), (0 : ℝ)) = (0 : ℝ × ℝ × ℝ) := rfl
  rw [hz]
  simp only [zero_add]
  exact scanIJ_map_sum H W
    (fun ij => pixelContributionOR subdiv positions groups environmentMap W H offset ij c)

/-- Claim C10: the integration loop indexes its accumulator with the
picture index returned by `findImageNumber` without checking for the
failure value `-1`.  If the cell occurs in some picture's group, the index
lies in `[0, number of pictures)`; if it occurs in no group the index is
`-1`; and under the precondition that every valid cell index is owned by
some picture, no accumulation ever lands at a negative index — the
out-of-bounds slot `-1` stays untouched (zero). -/
theorem C10_accumulator_index_safety (groups : List (List ℤ)) (cell : ℤ)
    (positions : List (ℤ × ℤ)) (environmentMap : EnvMap) (W H : ℕ) (offset : ℝ) :
    ((∃ g ∈ groups, cell ∈ g) →
        0 ≤ findImageNumber groups cell ∧
          findImageNumber groups cell < groups.length)
    ∧ ((∀ g ∈ groups, cell ∉ g) → findImageNumber groups cell = -1)
    ∧ ((∀ cl : ℤ, 0 ≤ cl → cl < positions.length → ∃ g ∈ groups, cl ∈ g) →
        ∀ c : ℤ, c < 0 →
          computeVoronoiWeightsOR positions positions groups environmentMap W H offset c
            = 0) := by
  refine ⟨findImageNumber_mem_range groups cell,
    findImageNumber_not_mem groups cell, ?_⟩
  intro hmap c hc
  rw [computeVoronoiWeightsOR_eq_sum]
  refine Finset.sum_eq_zero ?_
  intro i _
  refine Finset.sum_eq_zero ?_
  intro j _
  unfold pixelContributionOR
  rcases findNearestLightSource_cases positions positions (j : ℤ) (i : ℤ) with h1 | ⟨h2, h3⟩
  · simp [h1]
  · have hmem := hmap _ h2 h3
    have hge := (findImageNumber_mem_range groups _ hmem).1
    have : ¬ (c = findImageNumber groups
        (findNearestLightSource positions positions (j : ℤ) (i : ℤ))) := by omega
    simp [this]

/-- Witness for C10: a single picture owning the single cell 0; cell 5 is
owned by nobody; with the one-cell mapping the accumulator at index `-1`
stays zero. -/
theorem C10_accumulator_index_safety_witness :
    (0 ≤ findImageNumber [[(0 : ℤ)]] 0 ∧
        findImageNumber [[(0 : ℤ)]] 0 < ([[(0 : ℤ)]]).length)
    ∧ findImageNumber [[(0 : ℤ)]] 5 = -1
    ∧ computeVoronoiWeightsOR [((0 : ℤ), (0 : ℤ))] [((0 : ℤ), (0 : ℤ))]
        [[(0 : ℤ)]] (fun _ _ => zeroPixel) 1 1 0 (-1) = 0 := by
  refine ⟨?_, ?_, ?_⟩
  · exact (C10_accumulator_index_safety [[(0 : ℤ)]] 0 [] (fun _ _ => zeroPixel)
      1 1 0).1 ⟨[0], by simp, by simp⟩
  · exact (C10_accumulator_index_safety [[(0 : ℤ)]] 5 [] (fun _ _ => zeroPixel)
      1 1 0).2.1 (by intro g hg; simp at hg; simp [hg])
  · exact (C10_accumulator_index_safety [[(0 : ℤ)]] 0 [((0 : ℤ), (0 : ℤ))]
      (fun _ _ => zeroPixel) 1 1 0).2.2
      (by
        intro cl h1 h2
        refine ⟨[0], by simp, ?_⟩
        simp only [List.length_singleton] at h2
        have : cl = 0 := by omega
        simp [this]) (-1) (by norm_num)

theorem jModulusOf_eq_emod (j o : ℤ) (W : ℕ) (hj0 : 0 ≤ j) (hjW : j < (W : ℤ))
    (ho : 0 ≤ o) (hwrap : o + (W : ℤ) ≤ 4294967296) :
    jModulusOf j o W = (j + o) % (W : ℤ) := by
  unfold jModulusOf
  have h1 : (j + o) % 4294967296 = j + o := Int.emod_eq_of_lt (by omega) (by omega)
  rw [h1]

/-- Claim C2: for every pixel `(i, j)`, the per-condition integration finds
the owning cell from the unshifted pixel, reads the map at column
`(j + jOffset) mod W`, and adds `channel_value * sin(i*pi/H)` for each RGB
channel to the accumulator of the picture index obtained through the
cell-to-condition mapping (`findImageNumber`), not the raw cell index; a
pixel whose three channels are all not-a-number contributes nothing, while
a pixel that is not-a-number in only some channels is accumulated.  The
hypotheses keep the column shift non-negative and small enough that the
32-bit unsigned wrap of the source is the identity; every shift derived
from a rotation angle in `[0, 2*pi)` on a map of width at most `2^31`
satisfies them. -/
theorem C2_integration_per_pixel (subdiv positions : List (ℤ × ℤ))
    (groups : List (List ℤ)) (environmentMap : EnvMap) (W H : ℕ) (offset : ℝ)
    (c : ℤ) (hoff : 0 ≤ jOffsetOf offset W)
    (hwrap : jOffsetOf offset W + (W : ℤ) ≤ 4294967296) :
    computeVoronoiWeightsOR subdiv positions groups environmentMap W H offset c
      = ∑ i ∈ Finset.range H, ∑ j ∈ Finset.range W,
          (if findNearestLightSource subdiv positions (j : ℤ) (i : ℤ) ≠ -1 ∧
              allNaN (environmentMap (i : ℤ)
                (((j : ℤ) + jOffsetOf offset W) % (W : ℤ))) = false ∧
              c = findImageNumber groups
                    (findNearestLightSource subdiv positions (j : ℤ) (i : ℤ))
           then
             ((environmentMap (i : ℤ) (((j : ℤ) + jOffsetOf offset W) % (W : ℤ))).r
                 * Real.sin ((i : ℝ) * Real.pi / (H : ℝ)),
               (environmentMap (i : ℤ) (((j : ℤ) + jOffsetOf offset W) % (W : ℤ))).g
                 * Real.sin ((i : ℝ) * Real.pi / (H : ℝ)),
               (environmentMap (i : ℤ) (((j : ℤ) + jOffsetOf offset W) % (W : ℤ))).b
                 * Real.sin ((i : ℝ) * Real.pi / (H : ℝ)))
           else 0) := by
  rw [computeVoronoiWeightsOR_eq_sum]
  refine Finset.sum_congr rfl ?_
  intro i hi
  refine Finset.sum_congr rfl ?_
  intro j hj
  have hjW : ((j : ℤ)) < (W : ℤ) := by
    exact_mod_cast Finset.mem_range.mp hj
  have hmod : jModulusOf (j : ℤ) (jOffsetOf offset W) W
      = ((j : ℤ) + jOffsetOf offset W) % (W : ℤ) :=
    jModulusOf_eq_emod (j : ℤ) (jOffsetOf offset W) W (by positivity) hjW hoff hwrap
  unfold pixelContributionOR
  rw [hmod]
  simp only [solidAngleRow, Int.cast_natCast]

/-- Witness for C2: zero offset on a 1×1 map with an empty basis. -/
theorem C2_integration_per_pixel_witness :
    computeVoronoiWeightsOR [] [] [] (fun _ _ => zeroPixel) 1 1 0 0
      = ∑ i ∈ Finset.range 1, ∑ j ∈ Finset.range 1,
          (if findNearestLightSource [] [] (j : ℤ) (i : ℤ) ≠ -1 ∧
              allNaN ((fun _ _ => zeroPixel) (i : ℤ)
                (((j : ℤ) + jOffsetOf 0 1) % ((1 : ℕ) : ℤ))) = false ∧
              (0 : ℤ) = findImageNumber []
                    (findNearestLightSource [] [] (j : ℤ) (i : ℤ))
           then
             (((fun _ _ => zeroPixel) (i : ℤ) (((j : ℤ) + jOffsetOf 0 1) % ((1 : ℕ) : ℤ))).r
                 * Real.sin ((i : ℝ) * Real.pi / ((1 : ℕ) : ℝ)),
               ((fun _ _ => zeroPixel) (i : ℤ) (((j : ℤ) + jOffsetOf 0 1) % ((1 : ℕ) : ℤ))).g
                 * Real.sin ((i : ℝ) * Real.pi / ((1 : ℕ) : ℝ)),
               ((fun _ _ => zeroPixel) (i : ℤ) (((j : ℤ) + jOffsetOf 0 1) % ((1 : ℕ) : ℤ))).b
                 * Real.sin ((i : ℝ) * Real.pi / ((1 : ℕ) : ℝ)))
           else 0) :=
  C2_integration_per_pixel [] [] [] (fun _ _ => zeroPixel) 1 1 0 0
    (by norm_num [jOffsetOf]) (by norm_num [jOffsetOf])

theorem sum_range_indicator_gen {M : Type} [AddCommMonoid M] (n : ℕ) (idx : ℤ)
    (v : M) (h0 : 0 ≤ idx) (h1 : idx < (n : ℤ)) :
    ∑ k ∈ Finset.range n, (if (k : ℤ) = idx then v else 0) = v := by
  have hrw : ∀ k ∈ Finset.range n,
      (if (k : ℤ) = idx then v else 0) = (if k = idx.toNat then v else 0) := by
    intro k _
    have hiff : ((k : ℤ) = idx) ↔ (k = idx.toNat) := by omega
    simp [hiff]
  rw [Finset.sum_congr rfl hrw, Finset.sum_ite_eq']
  rw [if_pos (Finset.mem_range.mpr (by omega))]

theorem findNearestLightSource_single (s : ℤ × ℤ) (x y : ℤ) :
    findNearestLightSource [s] [s] x y = 0 := by
  show findLightSource [s] s = 0
  unfold findLightSource
  simp [findLightSourceAux]

/-- Claim C8 (amended): integrating the constant unit-intensity map over
the whole `W×H` domain and summing every condition's accumulated red
weight yields exactly `W * Σ_{i<H} sin(i*pi/H)` — the left Riemann sum of
`∫ sin θ dθ` over `[0, π]` scaled by `W*H/π`, not the analytic value `2`
scaled by `W`: the integration loop never multiplies by the step
`π/H` (nor `2π/W`). -/
theorem C8_constant_map_total_weight (positions : List (ℤ × ℤ))
    (groups : List (List ℤ)) (W H : ℕ) (offset : ℝ)
    (hne : positions ≠ [])
    (hcov : ∀ cl : ℤ, 0 ≤ cl → cl < positions.length → ∃ g ∈ groups, cl ∈ g) :
    ∑ c ∈ Finset.range groups.length,
        (computeVoronoiWeightsOR positions positions groups
          (fun _ _ => unitPixel) W H offset (c : ℤ)).1
      = (W : ℝ) * ∑ i ∈ Finset.range H, Real.sin ((i : ℝ) * Real.pi / (H : ℝ)) := by
  have hstep : ∀ c : ℕ,
      (computeVoronoiWeightsOR positions positions groups
          (fun _ _ => unitPixel) W H offset (c : ℤ)).1
        = ∑ i ∈ Finset.range H, ∑ j ∈ Finset.range W,
            (pixelContributionOR positions positions groups
              (fun _ _ => unitPixel) W H offset ((i : ℤ), (j : ℤ)) (c : ℤ)).1 := by
    intro c
    rw [computeVoronoiWeightsOR_eq_sum]
    rw [Prod.fst_sum]
    refine Finset.sum_congr rfl ?_
    intro i _
    rw [Prod.fst_sum]
  calc ∑ c ∈ Finset.range groups.length,
        (computeVoronoiWeightsOR positions positions groups
          (fun _ _ => unitPixel) W H offset (c : ℤ)).1
      = ∑ c ∈ Finset.range groups.length, ∑ i ∈ Finset.range H,
          ∑ j ∈ Finset.range W,
            (pixelContributionOR positions positions groups
              (fun _ _ => unitPixel) W H offset ((i : ℤ), (j : ℤ)) (c : ℤ)).1 :=
        Finset.sum_congr rfl (fun c _ => hstep c)
    _ = ∑ i ∈ Finset.range H, ∑ j ∈ Finset.range W,
          ∑ c ∈ Finset.range groups.length,
            (pixelContributionOR positions positions groups
              (fun _ _ => unitPixel) W H offset ((i : ℤ), (j : ℤ)) (c : ℤ)).1 := by
        rw [Finset.sum_comm]
        refine Finset.sum_congr rfl ?_
        intro i _
        rw [Finset.sum_comm]
    _ = ∑ i ∈ Finset.range H, ∑ j ∈ Finset.range W, solidAngleRow H (i : ℤ) := by
        refine Finset.sum_congr rfl ?_
        intro i _
        refine Finset.sum_congr rfl ?_
        intro j _
        rcases findNearestLightSource_cases positions positions (j : ℤ) (i : ℤ)
          with hc | ⟨hc0, hc1⟩
        · exfalso
          have hr := findNearestLightSource_range positions (j : ℤ) (i : ℤ) hne
          omega
        · have hmem := hcov _ hc0 hc1
          obtain ⟨hi0, hi1⟩ := findImageNumber_mem_range groups _ hmem
          have hcontrib : ∀ c : ℕ,
              (pixelContributionOR positions positions groups
                (fun _ _ => unitPixel) W H offset ((i : ℤ), (j : ℤ)) (c : ℤ)).1
              = (if (c : ℤ) = findImageNumber groups
                    (findNearestLightSource positions positions (j : ℤ) (i : ℤ))
                 then solidAngleRow H (i : ℤ) else 0) := by
            intro c
            unfold pixelContributionOR
            rw [apply_ite Prod.fst]
            have hne1 : findNearestLightSource positions positions (j : ℤ) (i : ℤ) ≠ -1 := by
              omega
            simp [hne1, allNaN, unitPixel]
          rw [Finset.sum_congr rfl (fun c _ => hcontrib c)]
          exact sum_range_indicator_gen groups.length _ _ hi0 hi1
    _ = (W : ℝ) * ∑ i ∈ Finset.range H, Real.sin ((i : ℝ) * Real.pi / (H : ℝ)) := by
        rw [Finset.mul_sum]
        refine Finset.sum_congr rfl ?_
        intro i _
        rw [Finset.sum_const, nsmul_eq_mul, Finset.card_range]
        unfold solidAngleRow
        push_cast
        ring

/-- Counterexample to C8 as stated: on a `1×2` constant unit map with one
light and one condition the summed accumulated weight is
`sin(0) + sin(π/2) = 1`, while the claimed value `2` scaled by the width
`W = 1` is `2`; the absolute error is `1`, not a floating-point
tolerance. -/
theorem C8_counterexample_riemann_sum_not_two_W :
    (∑ c ∈ Finset.range 1,
        (computeVoronoiWeightsOR [((0 : ℤ), (0 : ℤ))] [((0 : ℤ), (0 : ℤ))]
          [[(0 : ℤ)]] (fun _ _ => unitPixel) 1 2 0 (c : ℤ)).1) = 1
    ∧ ((1 : ℝ) ≠ 2 * 1) ∧ |(1 : ℝ) - 2 * 1| = 1 := by
  refine ⟨?_, by norm_num, by norm_num⟩
  rw [Finset.sum_range_one]
  rw [computeVoronoiWeightsOR_eq_sum]
  rw [Prod.fst_sum]
  have hinner : ∀ i ∈ Finset.range 2,
      (∑ j ∈ Finset.range 1,
          pixelContributionOR [((0 : ℤ), (0 : ℤ))] [((0 : ℤ), (0 : ℤ))]
            [[(0 : ℤ)]] (fun _ _ => unitPixel) 1 2 0 ((i : ℤ), (j : ℤ))
            ((0 : ℕ) : ℤ)).1
        = (pixelContributionOR [((0 : ℤ), (0 : ℤ))] [((0 : ℤ), (0 : ℤ))]
            [[(0 : ℤ)]] (fun _ _ => unitPixel) 1 2 0 ((i : ℤ), ((0 : ℕ) : ℤ))
            ((0 : ℕ) : ℤ)).1 := by
    intro i _
    rw [Finset.sum_range_one]
  rw [Finset.sum_congr rfl hinner]
  rw [Finset.sum_range_succ, Finset.sum_range_one]
  norm_num [pixelContributionOR, findNearestLightSource_single, findImageNumber,
    findImageNumberAux, allNaN, unitPixel, solidAngleRow, Real.sin_pi_div_two]

/-- Witness for the amended C8 on a concrete `1×1` domain with one light
and one condition. -/
theorem C8_constant_map_total_weight_witness :
    ∑ c ∈ Finset.range ([[(0 : ℤ)]]).length,
        (computeVoronoiWeightsOR [((0 : ℤ), (0 : ℤ))] [((0 : ℤ), (0 : ℤ))]
          [[(0 : ℤ)]] (fun _ _ => unitPixel) 1 1 0 (c : ℤ)).1
      = ((1 : ℕ) : ℝ) * ∑ i ∈ Finset.range 1, Real.sin ((i : ℝ) * Real.pi / ((1 : ℕ) : ℝ)) :=
  C8_constant_map_total_weight [((0 : ℤ), (0 : ℤ))] [[(0 : ℤ)]] 1 1 0
    (by decide)
    (by
      intro cl h1 h2
      refine ⟨[0], by simp, ?_⟩
      simp only [List.length_singleton] at h2
      have hcl : cl = 0 := by omega
      simp [hcl])

theorem moduloRealNumber_nonneg (x m : ℝ) (hm : 0 < m) :
    0 ≤ moduloRealNumber x m := by
  unfold moduloRealNumber
  have h := Int.floor_le (x / m)
  have h2 : (⌊x / m⌋ : ℝ) * m ≤ (x / m) * m := mul_le_mul_of_nonneg_right h hm.le
  rw [div_mul_cancel₀ x hm.ne'] at h2
  linarith

theorem moduloRealNumber_lt (x m : ℝ) (hm : 0 < m) : moduloRealNumber x m < m := by
  unfold moduloRealNumber
  have h := Int.lt_floor_add_one (x / m)
  have h2 : (x / m) * m < ((⌊x / m⌋ : ℝ) + 1) * m := mul_lt_mul_of_pos_right h hm
  rw [div_mul_cancel₀ x hm.ne'] at h2
  nlinarith

theorem two_pi_pos : (0 : ℝ) < 2 * Real.pi := by positivity

theorem rotateJOffsetOf_bounds (offset : ℝ) (W : ℕ) (hW : 0 < W) :
    0 ≤ rotateJOffsetOf offset W ∧ rotateJOffsetOf offset W < (W : ℤ) := by
  have hr0 := moduloRealNumber_nonneg offset (2 * Real.pi) two_pi_pos
  have hr1 := moduloRealNumber_lt offset (2 * Real.pi) two_pi_pos
  unfold rotateJOffsetOf
  constructor
  · refine Int.floor_nonneg.mpr ?_
    have : 0 ≤ moduloRealNumber offset (2 * Real.pi) / (2 * Real.pi) :=
      div_nonneg hr0 two_pi_pos.le
    positivity
  · refine Int.floor_lt.mpr ?_
    have hdiv : moduloRealNumber offset (2 * Real.pi) / (2 * Real.pi) < 1 :=
      (div_lt_one two_pi_pos).mpr hr1
    have hWpos : (0 : ℝ) < (W : ℝ) := by exact_mod_cast hW
    calc moduloRealNumber offset (2 * Real.pi) / (2 * Real.pi) * (W : ℝ)
        < 1 * (W : ℝ) := mul_lt_mul_of_pos_right hdiv hWpos
      _ = ((W : ℤ) : ℝ) := by push_cast; ring

theorem jOffsetOf_decompose (offset : ℝ) (W : ℕ) :
    jOffsetOf offset W
      = ⌊offset / (2 * Real.pi)⌋ * W + rotateJOffsetOf offset W := by
  unfold jOffsetOf rotateJOffsetOf moduloRealNumber
  have hπ : Real.pi ≠ 0 := Real.pi_ne_zero
  have harg : (offset - ⌊offset / (2 * Real.pi)⌋ * (2 * Real.pi)) / (2 * Real.pi) * (W : ℝ)
      = offset * (W : ℝ) / (2 * Real.pi) - ((⌊offset / (2 * Real.pi)⌋ * (W : ℕ) : ℤ) : ℝ) := by
    push_cast
    field_simp
    ring
  rw [harg, Int.floor_sub_int]
  ring

theorem jOffsetOf_zero (W : ℕ) : jOffsetOf 0 W = 0 := by
  unfold jOffsetOf
  norm_num

/-- Claim C5 (amended): for every environment map and every offset whose
derived column shift `floor(offset*W/(2*pi))` is non-negative and too small
to wrap modulo `2^32` (all offsets in `[0, 2*pi)` on maps of width at most
`2^31` qualify), integrating with the offset applied to the map lookup
equals first rotating the map with `rotateLatLongMap` and then integrating
with offset zero.  For a negative derived shift the integration reads the
map at wrapped columns produced by the unsigned arithmetic while the
rotation reduces the angle into `[0, 2*pi)` first, and the equivalence
fails (see the counterexample). -/
theorem C5_offset_equals_rotation (subdiv positions : List (ℤ × ℤ))
    (groups : List (List ℤ)) (environmentMap : EnvMap) (W H : ℕ) (offset : ℝ)
    (hW : 0 < W) (hoff : 0 ≤ jOffsetOf offset W)
    (hwrap : jOffsetOf offset W + (W : ℤ) ≤ 4294967296) :
    computeVoronoiWeightsOR subdiv positions groups environmentMap W H offset
      = computeVoronoiWeightsOR subdiv positions groups
          (rotateLatLongMap environmentMap W H offset) W H 0 := by
  funext c
  rw [computeVoronoiWeightsOR_eq_sum, computeVoronoiWeightsOR_eq_sum]
  refine Finset.sum_congr rfl ?_
  intro i hi
  refine Finset.sum_congr rfl ?_
  intro j hj
  have hiH : (i : ℤ) < (H : ℤ) := by exact_mod_cast Finset.mem_range.mp hi
  have hjW : (j : ℤ) < (W : ℤ) := by exact_mod_cast Finset.mem_range.mp hj
  have hL : jModulusOf (j : ℤ) (jOffsetOf offset W) W
      = ((j : ℤ) + jOffsetOf offset W) % (W : ℤ) :=
    jModulusOf_eq_emod (j : ℤ) (jOffsetOf offset W) W (by positivity) hjW hoff hwrap
  have hR : jModulusOf (j : ℤ) (jOffsetOf 0 W) W = (j : ℤ) := by
    rw [jOffsetOf_zero]
    unfold jModulusOf
    have e1 : (j : ℤ) % 4294967296 = (j : ℤ) :=
      Int.emod_eq_of_lt (by positivity) (by omega)
    have e2 : (j : ℤ) % (W : ℤ) = (j : ℤ) := Int.emod_eq_of_lt (by positivity) hjW
    rw [add_zero, e1, e2]
  have hb := rotateJOffsetOf_bounds offset W hW
  have hrot : rotateLatLongMap environmentMap W H offset (i : ℤ)
        (jModulusOf (j : ℤ) (jOffsetOf 0 W) W)
      = environmentMap (i : ℤ) (jModulusOf (j : ℤ) (jOffsetOf offset W) W) := by
    rw [hR, hL]
    unfold rotateLatLongMap
    rw [if_pos ⟨by positivity, hiH, by positivity, hjW⟩]
    congr 1
    rw [Int.tmod_eq_emod (by omega) (by omega)]
    rw [jOffsetOf_decompose offset W]
    rw [show (j : ℤ) + (⌊offset / (2 * Real.pi)⌋ * (W : ℕ) + rotateJOffsetOf offset W)
        = ((j : ℤ) + rotateJOffsetOf offset W) + (W : ℤ) * ⌊offset / (2 * Real.pi)⌋
      from by ring]
    rw [Int.add_mul_emod_self_left]
  simp only [pixelContributionOR]
  rw [hrot]

/-- Witness for the amended C5: zero offset on a 1×1 zero map. -/
theorem C5_offset_equals_rotation_witness :
    computeVoronoiWeightsOR [] [] [] (fun _ _ => zeroPixel) 1 1 0
      = computeVoronoiWeightsOR [] [] []
          (rotateLatLongMap (fun _ _ => zeroPixel) 1 1 0) 1 1 0 :=
  C5_offset_equals_rotation [] [] [] (fun _ _ => zeroPixel) 1 1 0
    (by norm_num) (by norm_num [jOffsetOf]) (by norm_num [jOffsetOf])

theorem jOffsetOf_neg_pi_three : jOffsetOf (-Real.pi) 3 = -2 := by
  unfold jOffsetOf
  have harg : -Real.pi * ((3 : ℕ) : ℝ) / (2 * Real.pi) = -(3 / 2 : ℝ) := by
    have hπ : Real.pi ≠ 0 := Real.pi_ne_zero
    field_simp
    ring
  rw [harg]
  refine Int.floor_eq_iff.mpr ⟨by norm_num, by norm_num⟩

theorem rotateJOffsetOf_neg_pi_three : rotateJOffsetOf (-Real.pi) 3 = 1 := by
  unfold rotateJOffsetOf moduloRealNumber
  have hπ : Real.pi ≠ 0 := Real.pi_ne_zero
  have hfloor : ⌊-Real.pi / (2 * Real.pi)⌋ = -1 := by
    have harg : -Real.pi / (2 * Real.pi) = -(1 / 2 : ℝ) := by
      field_simp
      ring
    rw [harg]
    refine Int.floor_eq_iff.mpr ⟨by norm_num, by norm_num⟩
  rw [hfloor]
  have harg2 : (-Real.pi - ((-1 : ℤ) : ℝ) * (2 * Real.pi)) / (2 * Real.pi) * ((3 : ℕ) : ℝ)
      = (3 / 2 : ℝ) := by
    push_cast
    field_simp
    ring
  rw [harg2]
  refine Int.floor_eq_iff.mpr ⟨by norm_num, by norm_num⟩

/-- Counterexample to C5 as stated: at offset `-π` on a 3×2 map the derived
shift is `floor(-3/2) = -2`; the integration then reads columns through the
32-bit unsigned wrap (`(0-2) mod 2^32 mod 3 = 2`), while rotating by `-π`
first reduces the angle into `[0, 2π)` and shifts by `+1`; on a map that is
1 on column 1 and 0 elsewhere the two integrals differ (0 versus 1) for the
single condition. -/
theorem C5_counterexample_negative_offset :
    (computeVoronoiWeightsOR [((0 : ℤ), (0 : ℤ))] [((0 : ℤ), (0 : ℤ))] [[(0 : ℤ)]]
        (fun _ j => if j = 1 then unitPixel else zeroPixel) 3 2 (-Real.pi) 0).1 = 0
    ∧ (computeVoronoiWeightsOR [((0 : ℤ), (0 : ℤ))] [((0 : ℤ), (0 : ℤ))] [[(0 : ℤ)]]
        (rotateLatLongMap (fun _ j => if j = 1 then unitPixel else zeroPixel) 3 2
          (-Real.pi)) 3 2 0 0).1 = 1
    ∧ computeVoronoiWeightsOR [((0 : ℤ), (0 : ℤ))] [((0 : ℤ), (0 : ℤ))] [[(0 : ℤ)]]
        (fun _ j => if j = 1 then unitPixel else zeroPixel) 3 2 (-Real.pi)
      ≠ computeVoronoiWeightsOR [((0 : ℤ), (0 : ℤ))] [((0 : ℤ), (0 : ℤ))] [[(0 : ℤ)]]
        (rotateLatLongMap (fun _ j => if j = 1 then unitPixel else zeroPixel) 3 2
          (-Real.pi)) 3 2 0 := by
  have hm0 : jModulusOf 0 (-2) 3 = 2 := by decide
  have hm1 : jModulusOf 1 (-2) 3 = 0 := by decide
  have hm2 : jModulusOf 2 (-2) 3 = 0 := by decide
  have hn0 : jModulusOf 0 0 3 = 0 := by decide
  have hn1 : jModulusOf 1 0 3 = 1 := by decide
  have hn2 : jModulusOf 2 0 3 = 2 := by decide
  have ht1 : Int.tmod 1 3 = 1 := by decide
  have ht2 : Int.tmod 2 3 = 2 := by decide
  have ht3 : Int.tmod 3 3 = 0 := by decide
  have hA : (computeVoronoiWeightsOR [((0 : ℤ), (0 : ℤ))] [((0 : ℤ), (0 : ℤ))]
      [[(0 : ℤ)]] (fun _ j => if j = 1 then unitPixel else zeroPixel) 3 2
      (-Real.pi) 0).1 = 0 := by
    rw [computeVoronoiWeightsOR_eq_sum]
    simp only [Finset.sum_range_succ, Finset.sum_range_zero, zero_add,
      Prod.fst_add]
    norm_num [pixelContributionOR, findNearestLightSource_single, findImageNumber,
      findImageNumberAux, allNaN, unitPixel, zeroPixel, solidAngleRow,
      jOffsetOf_neg_pi_three, hm0, hm1, hm2]
  have hB : (computeVoronoiWeightsOR [((0 : ℤ), (0 : ℤ))] [((0 : ℤ), (0 : ℤ))]
      [[(0 : ℤ)]] (rotateLatLongMap (fun _ j => if j = 1 then unitPixel else zeroPixel)
        3 2 (-Real.pi)) 3 2 0 0).1 = 1 := by
    rw [computeVoronoiWeightsOR_eq_sum]
    simp only [Finset.sum_range_succ, Finset.sum_range_zero, zero_add,
      Prod.fst_add]
    norm_num [pixelContributionOR, findNearestLightSource_single, findImageNumber,
      findImageNumberAux, allNaN, unitPixel, zeroPixel, solidAngleRow,
      jOffsetOf_zero, hn0, hn1, hn2, rotateLatLongMap, rotateJOffsetOf_neg_pi_three,
      ht1, ht2, ht3, Real.sin_pi_div_two]
  refine ⟨hA, hB, ?_⟩
  intro h
  rw [h] at hA
  exact absurd (hA.symm.trans hB) (by norm_num)

/-- Claim C4: a proposed point-light position outside the map extent is
silently rejected by `Voronoi::addPointLight` — nothing is inserted and
the point-light count is unchanged (the operation is total, so no error is
raised) — while a position inside the extent is always inserted.  The
range hypotheses say the coordinates fit in a C `int` and the map extent
in the positive half of one. -/
theorem C4_point_light_bounds_check (W H : ℕ) (st : VoronoiState) (p : ℤ × ℤ)
    (hW : (W : ℤ) ≤ 2147483648) (hH : (H : ℤ) ≤ 2147483648)
    (hx : -2147483648 ≤ p.1 ∧ p.1 < 2147483648)
    (hy : -2147483648 ≤ p.2 ∧ p.2 < 2147483648) :
    ((p.1 < 0 ∨ (W : ℤ) ≤ p.1 ∨ p.2 < 0 ∨ (H : ℤ) ≤ p.2) →
        (voronoiAddPointLight W H st p).basis.pointLightSourcePosition
            = st.basis.pointLightSourcePosition
          ∧ (voronoiAddPointLight W H st p).basis.numberOfPointLights
            = st.basis.numberOfPointLights)
    ∧ ((0 ≤ p.1 ∧ p.1 < (W : ℤ) ∧ 0 ≤ p.2 ∧ p.2 < (H : ℤ)) →
        (voronoiAddPointLight W H st p).basis.pointLightSourcePosition
            = st.basis.pointLightSourcePosition ++ [p]
          ∧ (voronoiAddPointLight W H st p).basis.numberOfPointLights
            = st.basis.numberOfPointLights + 1) := by
  constructor
  · intro hout
    have hcond : ¬(toUInt32 p.1 < (W : ℤ) ∧ toUInt32 p.2 < (H : ℤ)) := by
      unfold toUInt32
      omega
    refine ⟨?_, ?_⟩ <;> simp [voronoiAddPointLight, hcond]
  · intro hin
    have hcond : toUInt32 p.1 < (W : ℤ) ∧ toUInt32 p.2 < (H : ℤ) := by
      unfold toUInt32
      omega
    refine ⟨?_, ?_⟩ <;>
      simp [voronoiAddPointLight, hcond, LightingBasis.addPointLight]

/-- Witness for C4 on a 4×4 map: `(5, 0)` is rejected, `(1, 2)` is
inserted. -/
theorem C4_point_light_bounds_check_witness :
    ((voronoiAddPointLight 4 4 ⟨⟨[], [], false, 0, 0⟩, [], fun _ => 0⟩
          ((5 : ℤ), (0 : ℤ))).basis.pointLightSourcePosition = []
      ∧ (voronoiAddPointLight 4 4 ⟨⟨[], [], false, 0, 0⟩, [], fun _ => 0⟩
          ((5 : ℤ), (0 : ℤ))).basis.numberOfPointLights = 0)
    ∧ ((voronoiAddPointLight 4 4 ⟨⟨[], [], false, 0, 0⟩, [], fun _ => 0⟩
          ((1 : ℤ), (2 : ℤ))).basis.pointLightSourcePosition
            = [] ++ [((1 : ℤ), (2 : ℤ))]
      ∧ (voronoiAddPointLight 4 4 ⟨⟨[], [], false, 0, 0⟩, [], fun _ => 0⟩
          ((1 : ℤ), (2 : ℤ))).basis.numberOfPointLights = 0 + 1) :=
  ⟨(C4_point_light_bounds_check 4 4 ⟨⟨[], [], false, 0, 0⟩, [], fun _ => 0⟩
      ((5 : ℤ), (0 : ℤ)) (by norm_num) (by norm_num) (by norm_num) (by norm_num)).1
      (by norm_num),
    (C4_point_light_bounds_check 4 4 ⟨⟨[], [], false, 0, 0⟩, [], fun _ => 0⟩
      ((1 : ℤ), (2 : ℤ)) (by norm_num) (by norm_num) (by norm_num) (by norm_num)).2
      (by norm_num)⟩

theorem addPointLights_points :
    ∀ (ps : List (ℤ × ℤ)) (b : LightingBasis),
      (b.addPointLights ps).pointLightSourcePosition
        = b.pointLightSourcePosition ++ ps := by
  intro ps
  induction ps with
  | nil => intro b; simp [LightingBasis.addPointLights]
  | cons p rest ih =>
      intro b
      rw [show b.addPointLights (p :: rest)
          = (b.addPointLight p).addPointLights rest from rfl, ih]
      simp [LightingBasis.addPointLight]

theorem natDecimal_all_digits :
    ∀ n : ℕ, ∀ c ∈ natDecimal n, 48 ≤ c ∧ c ≤ 57 := by
  intro n
  induction n using Nat.strong_induction_on with
  | _ n ih =>
      intro c hc
      by_cases h : n < 10
      · rw [natDecimal, dif_pos h] at hc
        simp at hc
        omega
      · rw [natDecimal, dif_neg h] at hc
        rcases List.mem_append.mp hc with h1 | h1
        · exact ih (n / 10) (Nat.div_lt_self (by omega) (by omega)) c h1
        · simp at h1
          omega

theorem natDecimal_ne_nil (n : ℕ) : natDecimal n ≠ [] := by
  by_cases h : n < 10
  · rw [natDecimal, dif_pos h]
    simp
  · rw [natDecimal, dif_neg h]
    simp

theorem atoiDigits_append_digits :
    ∀ l1 : List ℕ, (∀ c ∈ l1, 48 ≤ c ∧ c ≤ 57) →
      ∀ (l2 : List ℕ) (acc : ℤ),
        atoiDigits acc (l1 ++ l2) = atoiDigits (atoiDigits acc l1) l2 := by
  intro l1
  induction l1 with
  | nil => intro _ l2 acc; rfl
  | cons c cs ih =>
      intro h l2 acc
      have hc := h c (by simp)
      rw [List.cons_append,
        show atoiDigits acc (c :: (cs ++ l2))
          = atoiDigits (10 * acc + ((c - 48 : ℕ) : ℤ)) (cs ++ l2) from by
            simp [atoiDigits, hc],
        show atoiDigits acc (c :: cs)
          = atoiDigits (10 * acc + ((c - 48 : ℕ) : ℤ)) cs from by
            simp [atoiDigits, hc]]
      exact ih (fun x hx => h x (by simp [hx])) l2 _

theorem atoiDigits_natDecimal :
    ∀ (n : ℕ) (acc : ℤ),
      atoiDigits acc (natDecimal n) = acc * 10 ^ (natDecimal n).length + n := by
  intro n
  induction n using Nat.strong_induction_on with
  | _ n ih =>
      intro acc
      by_cases h : n < 10
      · rw [natDecimal, dif_pos h]
        have hd : 48 ≤ 48 + n ∧ 48 + n ≤ 57 := by omega
        rw [show atoiDigits acc [48 + n]
            = 10 * acc + ((48 + n - 48 : ℕ) : ℤ) from by simp [atoiDigits, hd]]
        have h48 : 48 + n - 48 = n := by omega
        rw [h48]
        simp
        ring
      · rw [natDecimal, dif_neg h]
        rw [atoiDigits_append_digits (natDecimal (n / 10))
          (natDecimal_all_digits (n / 10)) [48 + n % 10] acc]
        rw [ih (n / 10) (Nat.div_lt_self (by omega) (by omega)) acc]
        have hd : 48 ≤ 48 + n % 10 ∧ 48 + n % 10 ≤ 57 := by omega
        rw [show atoiDigits (acc * 10 ^ (natDecimal (n / 10)).length + (↑(n / 10) : ℤ))
              [48 + n % 10]
            = 10 * (acc * 10 ^ (natDecimal (n / 10)).length + (↑(n / 10) : ℤ))
                + ((48 + n % 10 - 48 : ℕ) : ℤ) from by simp [atoiDigits, hd]]
        have h48 : 48 + n % 10 - 48 = n % 10 := by omega
        rw [h48, List.length_append, List.length_singleton, pow_succ]
        have hnm : (10 : ℤ) * ((n / 10 : ℕ) : ℤ) + ((n % 10 : ℕ) : ℤ) = (n : ℤ) := by
          omega
        ring_nf
        ring_nf at hnm
        omega

theorem atoiChars_intDecimal (x : ℤ) : atoiChars (intDecimal x) = x := by
  by_cases hx : x < 0
  · rw [intDecimal, if_pos hx]
    rw [show atoiChars (45 :: natDecimal (-x).toNat)
        = -atoiDigits 0 (natDecimal (-x).toNat) from by simp [atoiChars]]
    rw [atoiDigits_natDecimal]
    simp
    omega
  · rw [intDecimal, if_neg hx]
    cases hnd : natDecimal x.toNat with
    | nil => exact absurd hnd (natDecimal_ne_nil _)
    | cons c cs =>
        have hc : 48 ≤ c ∧ c ≤ 57 := natDecimal_all_digits _ c (by rw [hnd]; simp)
        rw [show atoiChars (c :: cs) = atoiDigits 0 (c :: cs) from by
          have h1 : ¬(c = 32 ∨ c = 9 ∨ c = 10 ∨ c = 13) := by omega
          have h2 : ¬(c = 45) := by omega
          have h3 : ¬(c = 43) := by omega
          simp [atoiChars, h1, h2, h3]]
        rw [← hnd, atoiDigits_natDecimal]
        simp
        omega

theorem parse_saveAux :
    ∀ (pts : List (ℤ × ℤ)) (i : ℕ),
      parseBasisTokens (saveBasisTokensAux i pts) = pts := by
  intro pts
  induction pts with
  | nil => intro i; rfl
  | cons p rest ih =>
      intro i
      simp only [saveBasisTokensAux, parseBasisTokens]
      rw [atoiChars_intDecimal, atoiChars_intDecimal, ih]

/-- Claim C9: loading appends the file's positions, in file order, to the
point lights already present; saving writes one `index: x y` token group
per light and parsing a saved file recovers exactly the saved positions;
hence clearing the basis and then loading a file written by save
reproduces the saved point lights in their original order. -/
theorem C9_load_appends_save_roundtrips (b : LightingBasis)
    (tokens : List (List ℕ)) (pts : List (ℤ × ℤ)) :
    (loadBasis b tokens).pointLightSourcePosition
        = b.pointLightSourcePosition ++ parseBasisTokens tokens
    ∧ parseBasisTokens (saveBasisTokens pts) = pts
    ∧ (loadBasis (b.clearBasis) (saveBasisTokens pts)).pointLightSourcePosition
        = pts := by
  refine ⟨addPointLights_points _ _, parse_saveAux pts 0, ?_⟩
  rw [show loadBasis (b.clearBasis) (saveBasisTokens pts)
      = LightingBasis.empty.addPointLights
          (parseBasisTokens (saveBasisTokens pts)) from rfl]
  rw [addPointLights_points,
    show saveBasisTokens pts = saveBasisTokensAux 0 pts from rfl,
    parse_saveAux pts 0]
  simp [LightingBasis.empty]

theorem foldl_add_sum {M : Type} [AddCommMonoid M] {α : Type} (g : α → M) :
    ∀ (l : List α) (a : M),
      l.foldl (fun s x => s + g x) a = a + (l.map g).sum := by
  intro l
  induction l with
  | nil => intro a; simp
  | cons x xs ih =>
      intro a
      rw [List.foldl_cons, ih, List.map_cons, List.sum_cons, add_assoc]

theorem C3_objective_step_eq (masks : ℕ → ℤ → ℤ → ℝ × ℝ × ℝ)
    (environmentMap : EnvMap) (rgbWeights : ℕ → ℝ × ℝ × ℝ) (W H : ℕ)
    (offset : ℝ) (vars : ℕ → ℝ) (k : ℕ) (res : ℝ) (ij : ℤ × ℤ) :
    (let jModulus := jModulusOf ij.2 (jOffsetOf offset W) W
     if maskSelected (masks k ij.1 ij.2) then
       let p := environmentMap ij.1 jModulus
       let R := p.r * Real.sin (Real.pi * ij.1 / H)
       let G := p.g * Real.sin (Real.pi * ij.1 / H)
       let B := p.b * Real.sin (Real.pi * ij.1 / H)
       let intensityEnvMap := (R + G + B) / 3
       if allNaN p then res
       else
         let intensityWeights := ((rgbWeights k).1 + (rgbWeights k).2.1 +
           (rgbWeights k).2.2) / 3
         res + (vars k * intensityWeights - intensityEnvMap) ^ 2
     else res)
    = res +
        (if maskSelected (masks k ij.1 ij.2) ∧
            allNaN (environmentMap ij.1 (jModulusOf ij.2 (jOffsetOf offset W) W))
              = false
         then (vars k * (((rgbWeights k).1 + (rgbWeights k).2.1 +
               (rgbWeights k).2.2) / 3)
             - ((environmentMap ij.1 (jModulusOf ij.2 (jOffsetOf offset W) W)).r
                   * Real.sin (Real.pi * ij.1 / H)
                 + (environmentMap ij.1 (jModulusOf ij.2 (jOffsetOf offset W) W)).g
                   * Real.sin (Real.pi * ij.1 / H)
                 + (environmentMap ij.1 (jModulusOf ij.2 (jOffsetOf offset W) W)).b
                   * Real.sin (Real.pi * ij.1 / H)) / 3) ^ 2
         else 0) := by
  by_cases h1 : maskSelected (masks k ij.1 ij.2)
  · by_cases h2 : allNaN (environmentMap ij.1 (jModulusOf ij.2 (jOffsetOf offset W) W)) = true
    · simp [h1, h2]
    · simp [h1, h2]
  · simp [h1]

/-- Claim C3: the original-space objective equals the square root of the
sum, over conditions and masked non-NaN pixels, of the squared difference
between `multiplier * condition_intensity` and the solid-angle-weighted
map intensity; and the box constraint `[0, 10]` passed to the optimizer
guarantees that every multiplier of the produced solution lies in
`[0, 10]`. -/
theorem C3_objective_and_box_bounds (masks : ℕ → ℤ → ℤ → ℝ × ℝ × ℝ)
    (environmentMap : EnvMap) (rgbWeights : ℕ → ℝ × ℝ × ℝ) (W H : ℕ)
    (offset : ℝ) (K : ℕ) (vars : ℕ → ℝ) (search : ℕ → ℝ) :
    functionToOptimise masks environmentMap rgbWeights W H offset K vars
      = Real.sqrt (∑ k ∈ Finset.range K, ∑ i ∈ Finset.range H,
          ∑ j ∈ Finset.range W,
          (if maskSelected (masks k (i : ℤ) (j : ℤ)) ∧
              allNaN (environmentMap (i : ℤ)
                (jModulusOf (j : ℤ) (jOffsetOf offset W) W)) = false
           then (vars k * (((rgbWeights k).1 + (rgbWeights k).2.1 +
                 (rgbWeights k).2.2) / 3)
               - ((environmentMap (i : ℤ)
                     (jModulusOf (j : ℤ) (jOffsetOf offset W) W)).r
                     * Real.sin (Real.pi * (i : ℝ) / (H : ℝ))
                   + (environmentMap (i : ℤ)
                     (jModulusOf (j : ℤ) (jOffsetOf offset W) W)).g
                     * Real.sin (Real.pi * (i : ℝ) / (H : ℝ))
                   + (environmentMap (i : ℤ)
                     (jModulusOf (j : ℤ) (jOffsetOf offset W) W)).b
                     * Real.sin (Real.pi * (i : ℝ) / (H : ℝ))) / 3) ^ 2
           else 0))
    ∧ (∀ k : ℕ, 0 ≤ (environmentMapOptimisation search rgbWeights).1 k
        ∧ (environmentMapOptimisation search rgbWeights).1 k ≤ 10) := by
  constructor
  · show Real.sqrt ((List.range K).foldl
        (fun (result : ℝ) (k : ℕ) =>
          (pixelScanIJ H W).foldl
            (fun (res : ℝ) (ij : ℤ × ℤ) =>
              let jModulus := jModulusOf ij.2 (jOffsetOf offset W) W
              if maskSelected (masks k ij.1 ij.2) then
                let p := environmentMap ij.1 jModulus
                let R := p.r * Real.sin (Real.pi * ij.1 / H)
                let G := p.g * Real.sin (Real.pi * ij.1 / H)
                let B := p.b * Real.sin (Real.pi * ij.1 / H)
                let intensityEnvMap := (R + G + B) / 3
                if allNaN p then res
                else
                  let intensityWeights := ((rgbWeights k).1 + (rgbWeights k).2.1 +
                    (rgbWeights k).2.2) / 3
                  res + (vars k * intensityWeights - intensityEnvMap) ^ 2
              else res)
            result)
        0)
      = Real.sqrt (∑ k ∈ Finset.range K, ∑ i ∈ Finset.range H,
          ∑ j ∈ Finset.range W,
          (if maskSelected (masks k (i : ℤ) (j : ℤ)) ∧
              allNaN (environmentMap (i : ℤ)
                (jModulusOf (j : ℤ) (jOffsetOf offset W) W)) = false
           then (vars k * (((rgbWeights k).1 + (rgbWeights k).2.1 +
                 (rgbWeights k).2.2) / 3)
               - ((environmentMap (i : ℤ)
                     (jModulusOf (j : ℤ) (jOffsetOf offset W) W)).r
                     * Real.sin (Real.pi * (i : ℝ) / (H : ℝ))
                   + (environmentMap (i : ℤ)
                     (jModulusOf (j : ℤ) (jOffsetOf offset W) W)).g
                     * Real.sin (Real.pi * (i : ℝ) / (H : ℝ))
                   + (environmentMap (i : ℤ)
                     (jModulusOf (j : ℤ) (jOffsetOf offset W) W)).b
                     * Real.sin (Real.pi * (i : ℝ) / (H : ℝ))) / 3) ^ 2
           else 0))
    refine congrArg Real.sqrt ?_
    rw [show (fun (result : ℝ) (k : ℕ) =>
        (pixelScanIJ H W).foldl
          (fun res ij =>
            let jModulus := jModulusOf ij.2 (jOffsetOf offset W) W
            if maskSelected (masks k ij.1 ij.2) then
              let p := environmentMap ij.1 jModulus
              let R := p.r * Real.sin (Real.pi * ij.1 / H)
              let G := p.g * Real.sin (Real.pi * ij.1 / H)
              let B := p.b * Real.sin (Real.pi * ij.1 / H)
              let intensityEnvMap := (R + G + B) / 3
              if allNaN p then res
              else
                let intensityWeights := ((rgbWeights k).1 + (rgbWeights k).2.1 +
                  (rgbWeights k).2.2) / 3
                res + (vars k * intensityWeights - intensityEnvMap) ^ 2
            else res)
          result)
      = fun (result : ℝ) (k : ℕ) => result +
          ((pixelScanIJ H W).map (fun ij =>
            (if maskSelected (masks k ij.1 ij.2) ∧
                allNaN (environmentMap ij.1
                  (jModulusOf ij.2 (jOffsetOf offset W) W)) = false
             then (vars k * (((rgbWeights k).1 + (rgbWeights k).2.1 +
                   (rgbWeights k).2.2) / 3)
                 - ((environmentMap ij.1
                       (jModulusOf ij.2 (jOffsetOf offset W) W)).r
                       * Real.sin (Real.pi * ij.1 / H)
                     + (environmentMap ij.1
                       (jModulusOf ij.2 (jOffsetOf offset W) W)).g
                       * Real.sin (Real.pi * ij.1 / H)
                     + (environmentMap ij.1
                       (jModulusOf ij.2 (jOffsetOf offset W) W)).b
                       * Real.sin (Real.pi * ij.1 / H)) / 3) ^ 2
             else 0))).sum
      from by
        funext result k
        rw [show (fun (res : ℝ) (ij : ℤ × ℤ) =>
            let jModulus := jModulusOf ij.2 (jOffsetOf offset W) W
            if maskSelected (masks k ij.1 ij.2) then
              let p := environmentMap ij.1 jModulus
              let R := p.r * Real.sin (Real.pi * ij.1 / H)
              let G := p.g * Real.sin (Real.pi * ij.1 / H)
              let B := p.b * Real.sin (Real.pi * ij.1 / H)
              let intensityEnvMap := (R + G + B) / 3
              if allNaN p then res
              else
                let intensityWeights := ((rgbWeights k).1 + (rgbWeights k).2.1 +
                  (rgbWeights k).2.2) / 3
                res + (vars k * intensityWeights - intensityEnvMap) ^ 2
            else res)
          = fun (res : ℝ) (ij : ℤ × ℤ) => res +
              (if maskSelected (masks k ij.1 ij.2) ∧
                  allNaN (environmentMap ij.1
                    (jModulusOf ij.2 (jOffsetOf offset W) W)) = false
               then (vars k * (((rgbWeights k).1 + (rgbWeights k).2.1 +
                     (rgbWeights k).2.2) / 3)
                   - ((environmentMap ij.1
                         (jModulusOf ij.2 (jOffsetOf offset W) W)).r
                         * Real.sin (Real.pi * ij.1 / H)
                       + (environmentMap ij.1
                         (jModulusOf ij.2 (jOffsetOf offset W) W)).g
                         * Real.sin (Real.pi * ij.1 / H)
                       + (environmentMap ij.1
                         (jModulusOf ij.2 (jOffsetOf offset W) W)).b
                         * Real.sin (Real.pi * ij.1 / H)) / 3) ^ 2
               else 0)
          from funext fun res => funext fun ij =>
            C3_objective_step_eq masks environmentMap rgbWeights W H offset
              vars k res ij]
        rw [foldl_add_sum]]
    rw [foldl_add_sum, zero_add, list_range_map_sum]
    refine Finset.sum_congr rfl ?_
    intro k _
    rw [scanIJ_map_sum]
    refine Finset.sum_congr rfl ?_
    intro i _
    refine Finset.sum_congr rfl ?_
    intro j _
    norm_cast
  · intro k
    simp only [environmentMapOptimisation, findMinBoxConstrained, clamp]
    split_ifs with h1 h2 h3
    · exact ⟨le_refl 0, by norm_num⟩
    · exact ⟨by norm_num, le_refl 10⟩
    · exact ⟨not_lt.mp h2, not_lt.mp h3⟩
    · exact absurd (by norm_num : (0 : ℝ) ≤ 10) h1

theorem gridLoopX_all_in (W H : ℕ) (stepW posY : ℤ)
    (hy0 : 0 ≤ posY) (hyH : posY < (H : ℤ)) (hH32 : (H : ℤ) ≤ 2147483648)
    (hW32 : (W : ℤ) ≤ 2147483648) :
    ∀ (nX : ℕ) (posX : ℤ) (b : LightingBasis),
      (∀ l : ℕ, l < nX → 0 ≤ posX + stepW * (l : ℤ) ∧
          posX + stepW * (l : ℤ) < (W : ℤ)) →
      (gridLoopX W H b nX posX posY stepW).1.pointLightSourcePosition
        = b.pointLightSourcePosition
            ++ (List.range nX).map (fun l : ℕ => (posX + stepW * (l : ℤ), posY)) := by
  intro nX
  induction nX with
  | zero => intro posX b _; simp [gridLoopX]
  | succ n ih =>
      intro posX b hb
      have h0 := hb 0 (by omega)
      simp only [Nat.cast_zero, mul_zero, add_zero] at h0
      have hcond : toUInt32 posX < (W : ℤ) ∧ toUInt32 posY < (H : ℤ) := by
        unfold toUInt32
        omega
      rw [show gridLoopX W H b (n + 1) posX posY stepW
          = gridLoopX W H (b.addPointLight (posX, posY)) n (posX + stepW) posY stepW
        from by rw [gridLoopX, if_pos hcond]]
      have harg : ∀ l : ℕ, l < n → 0 ≤ posX + stepW + stepW * (l : ℤ) ∧
          posX + stepW + stepW * (l : ℤ) < (W : ℤ) := by
        intro l hl
        have h1 := hb (l + 1) (by omega)
        have heq : posX + stepW * ((l + 1 : ℕ) : ℤ)
            = posX + stepW + stepW * (l : ℤ) := by
          push_cast
          ring
        rw [heq] at h1
        exact h1
      rw [ih (posX + stepW) (b.addPointLight (posX, posY)) harg]
      rw [show (b.addPointLight (posX, posY)).pointLightSourcePosition
          = b.pointLightSourcePosition ++ [(posX, posY)] from rfl]
      rw [List.append_assoc]
      congr 1
      rw [List.range_succ_eq_map, List.map_cons, List.map_map]
      simp only [Nat.cast_zero, mul_zero, add_zero, List.singleton_append]
      congr 1
      refine List.map_congr_left ?_
      intro l _
      simp only [Function.comp_apply]
      refine Prod.ext ?_ rfl
      push_cast
      ring

theorem gridLoopY_all_in (W H : ℕ) (stepW stepH startX : ℤ) (nX : ℕ)
    (hW32 : (W : ℤ) ≤ 2147483648) (hH32 : (H : ℤ) ≤ 2147483648)
    (hcols : ∀ l : ℕ, l < nX → 0 ≤ startX + stepW * (l : ℤ) ∧
        startX + stepW * (l : ℤ) < (W : ℤ)) :
    ∀ (nY : ℕ) (posY : ℤ) (b : LightingBasis),
      (∀ k : ℕ, k < nY → 0 ≤ posY + stepH * (k : ℤ) ∧
          posY + stepH * (k : ℤ) < (H : ℤ)) →
      (gridLoopY W H b nY nX startX posY stepW stepH).pointLightSourcePosition
        = b.pointLightSourcePosition
            ++ (List.range nY).flatMap (fun k : ℕ =>
                (List.range nX).map (fun l : ℕ =>
                  (startX + stepW * (l : ℤ), posY + stepH * (k : ℤ)))) := by
  intro nY
  induction nY with
  | zero => intro posY b _; simp [gridLoopY]
  | succ n ih =>
      intro posY b hk
      have h0 := hk 0 (by omega)
      simp only [Nat.cast_zero, mul_zero, add_zero] at h0
      rw [show gridLoopY W H b (n + 1) nX startX posY stepW stepH
          = gridLoopY W H (gridLoopX W H b nX startX posY stepW).1 n nX startX
              (posY + stepH) stepW stepH from by rw [gridLoopY]]
      have harg : ∀ k : ℕ, k < n → 0 ≤ posY + stepH + stepH * (k : ℤ) ∧
          posY + stepH + stepH * (k : ℤ) < (H : ℤ) := by
        intro k hkn
        have h1 := hk (k + 1) (by omega)
        have heq : posY + stepH * ((k + 1 : ℕ) : ℤ)
            = posY + stepH + stepH * (k : ℤ) := by
          push_cast
          ring
        rw [heq] at h1
        exact h1
      rw [ih (posY + stepH) (gridLoopX W H b nX startX posY stepW).1 harg]
      rw [gridLoopX_all_in W H stepW posY h0.1 h0.2 hH32 hW32 nX startX b hcols]
      rw [List.append_assoc]
      congr 1
      rw [List.range_succ_eq_map, List.flatMap_cons]
      simp only [Nat.cast_zero, mul_zero, add_zero]
      congr 1
      rw [List.flatMap_map]
      rw [show (fun k : ℕ => (List.range nX).map (fun l : ℕ =>
            (startX + stepW * (l : ℤ), posY + stepH + stepH * (k : ℤ))))
          = ((fun k : ℕ => (List.range nX).map (fun l : ℕ =>
              (startX + stepW * (l : ℤ), posY + stepH * (k : ℤ)))) ∘ Nat.succ) from by
        funext k
        simp only [Function.comp_apply]
        refine List.map_congr_left ?_
        intro l _
        refine Prod.ext rfl ?_
        push_cast
        ring]
      simp [Function.comp_def]

/-- Claim C6: expanding the area lights of a basis whose single rectangle
has extent `(200, 150)` (and lies inside the map) adds exactly the regular
`8×6 = 48`-point grid with 25-pixel steps starting half a step inside the
upper-left corner; a rectangle whose extent is smaller than the 25-pixel
spacing on either axis adds exactly one point light at the rectangle's
centre `(upperLeft+bottomRight)*0.5`. -/
theorem C6_area_light_sampling (W H : ℕ) (b : LightingBasis) (s e : ℤ × ℤ)
    (hrect : b.rectanglesAreaLights = [(s, e)])
    (hW32 : (W : ℤ) ≤ 2147483648) (hH32 : (H : ℤ) ≤ 2147483648) :
    ((|s.1 - e.1| = 200 ∧ |s.2 - e.2| = 150 ∧
        0 ≤ (reorientateRectangle s e).1.1 ∧
        (reorientateRectangle s e).1.1 + 200 ≤ (W : ℤ) ∧
        0 ≤ (reorientateRectangle s e).1.2 ∧
        (reorientateRectangle s e).1.2 + 150 ≤ (H : ℤ)) →
      (uniformSamplingAreaLightSources W H b).pointLightSourcePosition
          = b.pointLightSourcePosition
              ++ (List.range 6).flatMap (fun k : ℕ =>
                  (List.range 8).map (fun l : ℕ =>
                    ((reorientateRectangle s e).1.1 + 12 + 25 * (l : ℤ),
                     (reorientateRectangle s e).1.2 + 12 + 25 * (k : ℤ))))
        ∧ ((List.range 6).flatMap (fun k : ℕ =>
              (List.range 8).map (fun l : ℕ =>
                ((reorientateRectangle s e).1.1 + 12 + 25 * (l : ℤ),
                 (reorientateRectangle s e).1.2 + 12 + 25 * (k : ℤ))))).length
            = 48)
    ∧ ((|s.1 - e.1| < 25 ∨ |s.2 - e.2| < 25) →
      (uniformSamplingAreaLightSources W H b).pointLightSourcePosition
        = b.pointLightSourcePosition
            ++ [centerOfCorners (reorientateRectangle s e).1
                  (reorientateRectangle s e).2]) := by
  have hbase : (uniformSamplingAreaLightSources W H b).pointLightSourcePosition
      = (sampleOneAreaLight W H b (s, e)).pointLightSourcePosition := by
    unfold uniformSamplingAreaLightSources
    rw [hrect]
    rfl
  constructor
  · rintro ⟨h200, h150, hx0, hxW, hy0, hyH⟩
    constructor
    · rw [hbase]
      simp only [sampleOneAreaLight]
      rw [h200, h150]
      rw [if_pos (by decide : (25 : ℤ) < 200 ∧ (25 : ℤ) < 150)]
      rw [show Int.tdiv 200 25 = 8 from by decide,
        show Int.tdiv 150 25 = 6 from by decide,
        show Int.tdiv 200 8 = 25 from by decide,
        show Int.tdiv 150 6 = 25 from by decide,
        show Int.tdiv 25 2 = 12 from by decide,
        show (8 : ℤ).toNat = 8 from by decide,
        show (6 : ℤ).toNat = 6 from by decide]
      rw [gridLoopY_all_in W H 25 25 ((reorientateRectangle s e).1.1 + 12) 8
        hW32 hH32
        (by intro l hl; omega)
        6 ((reorientateRectangle s e).1.2 + 12) b
        (by intro k hk; omega)]
    · rw [List.length_flatMap]
      rw [show (List.range 6).map (List.length ∘ fun k : ℕ =>
            (List.range 8).map (fun l : ℕ =>
              ((reorientateRectangle s e).1.1 + 12 + 25 * (l : ℤ),
               (reorientateRectangle s e).1.2 + 12 + 25 * (k : ℤ))))
          = (List.range 6).map (fun _ => 8) from
        List.map_congr_left (by intro a _; simp)]
      simp [List.map_const]
  · intro hsmall
    rw [hbase]
    simp only [sampleOneAreaLight]
    rw [if_neg (by omega : ¬((25 : ℤ) < |s.1 - e.1| ∧ (25 : ℤ) < |s.2 - e.2|))]
    rfl

/-- Witness for C6 on a 1024×512 map: the rectangle `(0,0)-(200,150)`
expands to the 48-point grid, and the rectangle `(0,0)-(10,10)` collapses
to its centre. -/
theorem C6_area_light_sampling_witness :
    ((uniformSamplingAreaLightSources 1024 512
        ⟨[], [(((0 : ℤ), (0 : ℤ)), ((200 : ℤ), (150 : ℤ)))], false, 0, 1⟩).pointLightSourcePosition
        = [] ++ (List.range 6).flatMap (fun k : ℕ =>
            (List.range 8).map (fun l : ℕ =>
              ((reorientateRectangle ((0 : ℤ), (0 : ℤ)) ((200 : ℤ), (150 : ℤ))).1.1
                  + 12 + 25 * (l : ℤ),
               (reorientateRectangle ((0 : ℤ), (0 : ℤ)) ((200 : ℤ), (150 : ℤ))).1.2
                  + 12 + 25 * (k : ℤ))))
      ∧ ((List.range 6).flatMap (fun k : ℕ =>
            (List.range 8).map (fun l : ℕ =>
              ((reorientateRectangle ((0 : ℤ), (0 : ℤ)) ((200 : ℤ), (150 : ℤ))).1.1
                  + 12 + 25 * (l : ℤ),
               (reorientateRectangle ((0 : ℤ), (0 : ℤ)) ((200 : ℤ), (150 : ℤ))).1.2
                  + 12 + 25 * (k : ℤ))))).length = 48)
    ∧ (uniformSamplingAreaLightSources 1024 512
        ⟨[], [(((0 : ℤ), (0 : ℤ)), ((10 : ℤ), (10 : ℤ)))], false, 0, 1⟩).pointLightSourcePosition
        = [] ++ [centerOfCorners
            (reorientateRectangle ((0 : ℤ), (0 : ℤ)) ((10 : ℤ), (10 : ℤ))).1
            (reorientateRectangle ((0 : ℤ), (0 : ℤ)) ((10 : ℤ), (10 : ℤ))).2] :=
  ⟨(C6_area_light_sampling 1024 512
      ⟨[], [(((0 : ℤ), (0 : ℤ)), ((200 : ℤ), (150 : ℤ)))], false, 0, 1⟩
      ((0 : ℤ), (0 : ℤ)) ((200 : ℤ), (150 : ℤ)) rfl (by norm_num) (by norm_num)).1
      ⟨by decide, by decide, by decide, by decide, by decide, by decide⟩,
    (C6_area_light_sampling 1024 512
      ⟨[], [(((0 : ℤ), (0 : ℤ)), ((10 : ℤ), (10 : ℤ)))], false, 0, 1⟩
      ((0 : ℤ), (0 : ℤ)) ((10 : ℤ), (10 : ℤ)) rfl (by norm_num) (by norm_num)).2
      (Or.inl (by decide))⟩

theorem totalEnergyOf_eq_sum (cond : ℤ → ℤ → ℝ × ℝ × ℝ) (W H : ℕ) :
    totalEnergyOf cond W H
      = ((pixelScanIJ H W).map (fun ij => intensityMean (cond ij.1 ij.2))).sum := by
  unfold totalEnergyOf
  rw [foldl_add_sum (fun ij : ℤ × ℤ => intensityMean (cond ij.1 ij.2))
    (pixelScanIJ H W) 0, zero_add]

theorem medianScan_flag_true (cond : ℤ → ℤ → ℝ × ℝ × ℝ) (med : ℝ) :
    ∀ (l : List (ℤ × ℤ)) (acc : ℝ) (em : List (ℤ × ℤ)),
      (l.foldl
        (fun st ij =>
          let sumEnergy := st.1 + intensityMean (cond ij.1 ij.2)
          if sumEnergy > med ∧ st.2.1 = false then
            (sumEnergy, true, st.2.2 ++ [(ij.2, ij.1)])
          else (sumEnergy, st.2.1, st.2.2))
        (acc, true, em)).2.2 = em := by
  intro l
  induction l with
  | nil => intro acc em; rfl
  | cons x xs ih =>
      intro acc em
      rw [List.foldl_cons,
        show (let sumEnergy := acc + intensityMean (cond x.1 x.2)
          if sumEnergy > med ∧ (true = false) then
            (sumEnergy, true, em ++ [(x.2, x.1)])
          else (sumEnergy, true, em))
          = (acc + intensityMean (cond x.1 x.2), true, em) from by simp]
      exact ih _ _

theorem medianScan_flag_false (cond : ℤ → ℤ → ℝ × ℝ × ℝ) (med : ℝ) :
    ∀ (l : List (ℤ × ℤ)) (acc : ℝ) (em : List (ℤ × ℤ)),
      (l.foldl
        (fun st ij =>
          let sumEnergy := st.1 + intensityMean (cond ij.1 ij.2)
          if sumEnergy > med ∧ st.2.1 = false then
            (sumEnergy, true, st.2.2 ++ [(ij.2, ij.1)])
          else (sumEnergy, st.2.1, st.2.2))
        (acc, false, em)).2.2
      = (match firstExceedIdx med acc
            (l.map (fun ij => intensityMean (cond ij.1 ij.2))) with
         | none => em
         | some n => em ++ [((l.getD n ((0 : ℤ), (0 : ℤ))).2,
             (l.getD n ((0 : ℤ), (0 : ℤ))).1)]) := by
  intro l
  induction l with
  | nil => intro acc em; rfl
  | cons x xs ih =>
      intro acc em
      by_cases hx : acc + intensityMean (cond x.1 x.2) > med
      · rw [List.foldl_cons,
          show (let sumEnergy := acc + intensityMean (cond x.1 x.2)
            if sumEnergy > med ∧ (false = false) then
              (sumEnergy, true, em ++ [(x.2, x.1)])
            else (sumEnergy, false, em))
            = (acc + intensityMean (cond x.1 x.2), true, em ++ [(x.2, x.1)])
            from by simp [hx]]
        rw [medianScan_flag_true cond med xs _ _]
        rw [List.map_cons,
          show firstExceedIdx med acc
              (intensityMean (cond x.1 x.2) ::
                xs.map (fun ij => intensityMean (cond ij.1 ij.2)))
            = some 0 from by simp [firstExceedIdx, hx]]
        simp
      · rw [List.foldl_cons,
          show (let sumEnergy := acc + intensityMean (cond x.1 x.2)
            if sumEnergy > med ∧ (false = false) then
              (sumEnergy, true, em ++ [(x.2, x.1)])
            else (sumEnergy, false, em))
            = (acc + intensityMean (cond x.1 x.2), false, em)
            from by simp [hx]]
        rw [ih (acc + intensityMean (cond x.1 x.2)) em]
        rw [List.map_cons,
          show firstExceedIdx med acc
              (intensityMean (cond x.1 x.2) ::
                xs.map (fun ij => intensityMean (cond ij.1 ij.2)))
            = (firstExceedIdx med (acc + intensityMean (cond x.1 x.2))
                (xs.map (fun ij => intensityMean (cond ij.1 ij.2)))).map (· + 1)
            from by simp [firstExceedIdx, hx]]
        cases hopt : firstExceedIdx med (acc + intensityMean (cond x.1 x.2))
            (xs.map (fun ij => intensityMean (cond ij.1 ij.2))) with
        | none => simp
        | some n => simp

theorem firstExceedIdx_isSome (t : ℝ) :
    ∀ (l : List ℝ) (acc : ℝ), l ≠ [] → acc + l.sum > t →
      (firstExceedIdx t acc l).isSome = true := by
  intro l
  induction l with
  | nil => intro acc h _; exact absurd rfl h
  | cons x xs ih =>
      intro acc _ hsum
      by_cases hx : acc + x > t
      · simp [firstExceedIdx, hx]
      · have hxs : xs ≠ [] := by
          rintro rfl
          rw [List.sum_cons, List.sum_nil] at hsum
          exact hx (by linarith)
        have hs : (acc + x) + xs.sum > t := by
          rw [List.sum_cons] at hsum
          linarith
        have := ih (acc + x) hxs hs
        simp [firstExceedIdx, hx, this]

/-- Claim C7: for a lighting condition whose sub-image has strictly
positive total intensity, `identifyMedianEnergy` adds exactly one point
light for that condition, at `(j, i)` of the first pixel in row-major scan
order whose running cumulative intensity strictly exceeds half the
total. -/
theorem C7_median_energy_single_light (cond : ℤ → ℤ → ℝ × ℝ × ℝ) (W H : ℕ)
    (hpos : 0 < totalEnergyOf cond W H) :
    ∃ n : ℕ,
      firstExceedIdx (totalEnergyOf cond W H / 2) 0
          ((pixelScanIJ H W).map (fun ij => intensityMean (cond ij.1 ij.2)))
        = some n
      ∧ identifyMedianEnergyLights cond W H
        = [(((pixelScanIJ H W).getD n ((0 : ℤ), (0 : ℤ))).2,
            ((pixelScanIJ H W).getD n ((0 : ℤ), (0 : ℤ))).1)] := by
  have hscan : pixelScanIJ H W ≠ [] := by
    intro hnil
    have h0 := hpos
    rw [totalEnergyOf_eq_sum, hnil] at h0
    simp at h0
  have hmap : (pixelScanIJ H W).map (fun ij => intensityMean (cond ij.1 ij.2)) ≠ [] := by
    intro hnil
    exact hscan (List.map_eq_nil_iff.mp hnil)
  have hsum : 0 + ((pixelScanIJ H W).map
      (fun ij => intensityMean (cond ij.1 ij.2))).sum
      > totalEnergyOf cond W H / 2 := by
    rw [← totalEnergyOf_eq_sum]
    linarith
  have hsome := firstExceedIdx_isSome (totalEnergyOf cond W H / 2)
    ((pixelScanIJ H W).map (fun ij => intensityMean (cond ij.1 ij.2))) 0 hmap hsum
  obtain ⟨n, hn⟩ := Option.isSome_iff_exists.mp hsome
  refine ⟨n, hn, ?_⟩
  simp only [identifyMedianEnergyLights, identifyMedianEnergyScan]
  rw [medianScan_flag_false cond (totalEnergyOf cond W H / 2) (pixelScanIJ H W) 0 []]
  rw [hn]
  simp

/-- Witness for C7: a constant-intensity 1×1 condition image. -/
theorem C7_median_energy_single_light_witness :
    ∃ n : ℕ,
      firstExceedIdx (totalEnergyOf (fun _ _ => ((3 : ℝ), (3 : ℝ), (3 : ℝ))) 1 1 / 2) 0
          ((pixelScanIJ 1 1).map (fun ij =>
            intensityMean ((fun _ _ => ((3 : ℝ), (3 : ℝ), (3 : ℝ))) ij.1 ij.2)))
        = some n
      ∧ identifyMedianEnergyLights (fun _ _ => ((3 : ℝ), (3 : ℝ), (3 : ℝ))) 1 1
        = [(((pixelScanIJ 1 1).getD n ((0 : ℤ), (0 : ℤ))).2,
            ((pixelScanIJ 1 1).getD n ((0 : ℤ), (0 : ℤ))).1)] :=
  C7_median_energy_single_light (fun _ _ => ((3 : ℝ), (3 : ℝ), (3 : ℝ))) 1 1
    (by norm_num [totalEnergyOf, pixelScanIJ, intensityMean, List.range_succ])

end IBRF
